import Mathlib

set_option maxRecDepth 4000
set_option linter.unnecessarySeqFocus false

namespace CreditSentinel

/-! Shallow embedding of the DeFi-AI-Credit-Sentinel scanning engine
(src/pythonFile/scan_eth_public_rpc.py, scan_eth_highperf_api.py,
batch_eth_stats_ai.py). JSON payloads delivered by the JSON-RPC layer are
modelled by `JVal`; machine integers are `Int`/`Nat`. -/

/-- JSON-like values as produced by json.loads on the RPC responses the
scanner inspects: null, integers, strings, arrays and objects. Floats and
booleans do not occur in the inspected payload positions and are omitted. -/
inductive JVal where
  | jnull : JVal
  | jint (n : Int) : JVal
  | jstr (s : String) : JVal
  | jlist (xs : List JVal) : JVal
  | jdict (kvs : List (String × JVal)) : JVal

/-- Python truthiness of a JSON value: None, 0, "", [] and empty dicts are
falsy, everything else is truthy. -/
def JVal.truthy : JVal → Bool
  | .jnull => false
  | .jint n => n != 0
  | .jstr s => s != ""
  | .jlist xs => !xs.isEmpty
  | .jdict kvs => !kvs.isEmpty

/-- Views a JSON value as a dict (association list); none on non-dicts.
A Python attribute access such as x.get on a non-dict raises, which the
embedding represents by this returning none. -/
def JVal.asDict : JVal → Option (List (String × JVal))
  | .jdict kvs => some kvs
  | _ => none

/-- Dictionary lookup on the association-list representation of a JSON
object (objects parsed from JSON have unique keys). -/
def alookup (kvs : List (String × JVal)) (k : String) : Option JVal :=
  match kvs with
  | [] => none
  | (k2, v) :: rest => if k2 = k then some v else alookup rest k

/-- A single-quote character, used by the Python repr of strings. -/
def squote : String := (Char.ofNat 39).toString

mutual
/-- Python repr() of a JSON value (containers render their elements with
repr, as Python str() of a container does). -/
def pyRepr : JVal → String
  | .jnull => "None"
  | .jint n => toString n
  | .jstr s => squote ++ s ++ squote
  | .jlist xs => "[" ++ pyReprList xs ++ "]"
  | .jdict kvs => "\x7b" ++ pyReprDict kvs ++ "\x7d"

/-- Comma-separated reprs of the elements of a list. -/
def pyReprList : List JVal → String
  | [] => ""
  | [x] => pyRepr x
  | x :: xs => pyRepr x ++ ", " ++ pyReprList xs

/-- Comma-separated key: value reprs of the entries of a dict. -/
def pyReprDict : List (String × JVal) → String
  | [] => ""
  | [(k, v)] => squote ++ k ++ squote ++ ": " ++ pyRepr v
  | (k, v) :: xs => squote ++ k ++ squote ++ ": " ++ pyRepr v ++ ", " ++ pyReprDict xs
end

/-- Python str() of a JSON value: identity on strings, repr elsewhere. -/
def pyStr : JVal → String
  | .jstr s => s
  | v => pyRepr v

mutual
/-- Structural (Python ==) equality test on JSON values. -/
def JVal.beq : JVal → JVal → Bool
  | .jnull, .jnull => true
  | .jint a, .jint b => a == b
  | .jstr a, .jstr b => a == b
  | .jlist a, .jlist b => JVal.beqList a b
  | .jdict a, .jdict b => JVal.beqDict a b
  | _, _ => false

/-- Elementwise equality of JSON arrays. -/
def JVal.beqList : List JVal → List JVal → Bool
  | [], [] => true
  | a :: as1, b :: bs1 => JVal.beq a b && JVal.beqList as1 bs1
  | _, _ => false

/-- Entrywise equality of JSON objects in association-list form. -/
def JVal.beqDict : List (String × JVal) → List (String × JVal) → Bool
  | [], [] => true
  | (k1, a) :: as1, (k2, b) :: bs1 => k1 == k2 && JVal.beq a b && JVal.beqDict as1 bs1
  | _, _ => false
end

/-! Python int() parsing, restricted to the shapes that occur in trace
payloads: nonempty runs of digits, with an optional 0x prefix in base 16.
Signs, whitespace and underscore separators are not modelled. -/

/-- Value of one hexadecimal digit character. -/
def hexDigitVal (c : Char) : Option Nat :=
  if '0' ≤ c ∧ c ≤ '9' then some (c.toNat - '0'.toNat)
  else if 'a' ≤ c ∧ c ≤ 'f' then some (10 + c.toNat - 'a'.toNat)
  else if 'A' ≤ c ∧ c ≤ 'F' then some (10 + c.toNat - 'A'.toNat)
  else none

/-- Value of one decimal digit character. -/
def decDigitVal (c : Char) : Option Nat :=
  if '0' ≤ c ∧ c ≤ '9' then some (c.toNat - '0'.toNat) else none

/-- Accumulating digit-string parser in base b; none at the first
non-digit character (Python int() raises ValueError there). -/
def parseDigitsAcc (dv : Char → Option Nat) (b : Nat) (acc : Nat) : List Char → Option Nat
  | [] => some acc
  | c :: cs =>
    match dv c with
    | some d => parseDigitsAcc dv b (acc * b + d) cs
    | none => none

/-- Digit-string parser; the empty string is rejected as int("") is. -/
def parseDigits (dv : Char → Option Nat) (b : Nat) : List Char → Option Nat
  | [] => none
  | c :: cs => parseDigitsAcc dv b 0 (c :: cs)

/-- Strips one leading 0x or 0X, as int(s, 16) accepts. -/
def strip0x : List Char → List Char
  | '0' :: 'x' :: rest => rest
  | '0' :: 'X' :: rest => rest
  | cs => cs

/-- Python int(s, 16) on the hexadecimal strings found in traces. -/
def pyInt16 (s : String) : Option Int :=
  (parseDigits hexDigitVal 16 (strip0x s.data)).map Int.ofNat

/-- Python int(s) on decimal strings. -/
def pyIntDec (s : String) : Option Int :=
  (parseDigits decDigitVal 10 s.data).map Int.ofNat

/-- ASCII lowercase of one character. Python str.lower() is full Unicode,
but every string the scanners lower is an ASCII hex address or hash, on
which ASCII lowering is exact. -/
def charLower (c : Char) : Char :=
  if 'A' ≤ c ∧ c ≤ 'Z' then Char.ofNat (c.toNat + 32) else c

/-- Python s.lower() on the ASCII strings handled by the scanners. -/
def pyLower (s : String) : String := ⟨s.data.map charLower⟩

/-- Tests s.startswith("0x") as the sources do before choosing base 16. -/
def startsWith0x (s : String) : Bool :=
  match s.data with
  | '0' :: 'x' :: _ => true
  | _ => false

/-- Digits of n in base b, most significant first (b at least 2; the guard
on b only serves termination and is never taken for bases 10 and 16). -/
def baseDigits (b n : Nat) : List Char :=
  if _h : n < b ∨ b ≤ 1 then [Nat.digitChar n]
  else baseDigits b (n / b) ++ [Nat.digitChar (n % b)]
termination_by n
decreasing_by
  exact Nat.div_lt_self (by omega) (by omega)

/-- The hexadecimal wire encoding 0x... of an unsigned value. -/
def hexEncode (n : Nat) : String := ⟨'0' :: 'x' :: baseDigits 16 n⟩

/-- The decimal wire encoding of an unsigned value. -/
def decEncode (n : Nat) : String := ⟨baseDigits 10 n⟩

/-! Embedding of count_internal_receives. The per-entry and per-node logic
is textually identical in scan_eth_public_rpc.py (lines 163-225) and
scan_eth_highperf_api.py (lines 128-173), so it is defined once here; the
two top-level drivers differ only in how a non-list trace_block payload is
treated and are defined separately below. An Option result of none models
an uncaught Python exception at that point. -/

/-- Value normalization of one trace_block entry value, modelling
val = action.get("value", 0); if isinstance(val, str): val = int(val, 16)
if val.startswith("0x") else int(val or 0). Only called on strings; none
models a ValueError from int(). -/
def traceStrVal (s : String) : Option Int :=
  if startsWith0x s then pyInt16 s
  else if s = "" then some 0
  else pyIntDec s

/-- One iteration of the trace_block loop body (the try block) of
count_internal_receives: none when the body raises, some k with the
contribution (0 or 1) of this entry otherwise. -/
def entryCount (tgt : String) (t : JVal) : Option Int :=
  match t.asDict with
  | none => none
  | some td =>
    let isKind : Bool :=
      match (alookup td "type").getD .jnull with
      | .jstr s => s == "call" || s == "create" || s == "suicide"
      | _ => false
    if isKind then
      let a0 := (alookup td "action").getD .jnull
      let a1 := if a0.truthy then a0 else .jdict []
      match a1.asDict with
      | none => none
      | some ad =>
        let toA := pyLower (pyStr ((alookup ad "to").getD (.jstr "")))
        match (alookup ad "value").getD (.jint 0) with
        | .jstr s =>
          match traceStrVal s with
          | none => none
          | some val => some (if toA = tgt ∧ val > 0 then 1 else 0)
        | .jint val => some (if toA = tgt ∧ val > 0 then 1 else 0)
        | _ => if toA = tgt then none else some 0
    else some 0

/-- Sum of the per-entry contributions over a trace_block payload list;
entries whose body raises are skipped (continue) and contribute 0. -/
def sumEntries (tgt : String) : List JVal → Int
  | [] => 0
  | t :: ts => (entryCount tgt t).getD 0 + sumEntries tgt ts

/-- Value normalization in the callTracer walker, modelling
v = node.get("value", "0x0"); val = int(v, 16) if isinstance(v, str) and
v.startswith("0x") else int(v or 0). none models a raised TypeError or
ValueError. -/
def debugVal : JVal → Option Int
  | .jstr s => traceStrVal s
  | .jint n => some n
  | .jnull => some 0
  | .jlist xs => if xs.isEmpty then some 0 else none
  | .jdict kvs => if kvs.isEmpty then some 0 else none

mutual
/-- The recursive dfs of the debug_trace branch. An exception while
normalizing a node returns from dfs, dropping the node and its entire
subtree; increments made before the exception persist. Iterating a truthy
non-list calls value either yields only values on which dfs contributes 0
(dict keys, string characters) or raises after the increment, so such a
node contributes only its own match. -/
def dfsDebug (tgt : String) : JVal → Int
  | .jdict nd =>
    match debugVal ((alookup nd "value").getD (.jstr "0x0")) with
    | none => 0
    | some val =>
      let toA := pyLower (pyStr ((alookup nd "to").getD (.jstr "")))
      (if toA = tgt ∧ val > 0 then 1 else 0) + dfsCalls tgt nd
  | _ => 0

/-- Finds the calls entry of a node (node.get("calls", []) or []) and
recurses into it; absent or falsy yields no children. -/
def dfsCalls (tgt : String) : List (String × JVal) → Int
  | [] => 0
  | (k, v) :: rest =>
    if k = "calls" then (if v.truthy then dfsChildren tgt v else 0)
    else dfsCalls tgt rest

/-- Recurses into the iterable found under calls: a list visits every
element with dfs; any other iterable contributes 0 (see dfsDebug). -/
def dfsChildren (tgt : String) : JVal → Int
  | .jlist cs => dfsList tgt cs
  | _ => 0

/-- dfs over a list of child nodes. -/
def dfsList (tgt : String) : List JVal → Int
  | [] => 0
  | c :: cs => dfsDebug tgt c + dfsList tgt cs
end

/-- Contribution of one extracted root to the debug_trace count: dfs is
entered only when root is a dict (isinstance(root, dict)). -/
def rootCount (tgt : String) : JVal → Int
  | .jdict kvs => dfsDebug tgt (.jdict kvs)
  | _ => 0

/-- Top-level iteration of the debug_trace branch over the payload values
(dict case) or items (list case): root = v.get("result") or v, then dfs
when root is a dict. The v.get call is outside any try, so a non-dict
element raises out of count_internal_receives (modelled by none). -/
def debugTop (tgt : String) : List JVal → Option Int
  | [] => some 0
  | v :: rest =>
    match v.asDict with
    | none => none
    | some vd =>
      let r := (alookup vd "result").getD .jnull
      let root := if r.truthy then r else v
      (debugTop tgt rest).map (fun s => rootCount tgt root + s)

namespace ScanPublic

/-- count_internal_receives of scan_eth_public_rpc.py (lines 163-225).
The trace_block branch iterates the payload directly: a dict payload
iterates its keys (each key string raises inside the try and is skipped),
a string iterates its characters (likewise skipped), while iterating
None or an int raises TypeError out of the function. -/
def count_internal_receives (trace_method : String) (trace_payload : JVal)
    (target_addr : String) : Option Int :=
  let target := pyLower target_addr
  if trace_method = "trace_block" then
    match trace_payload with
    | .jlist ts => some (sumEntries target ts)
    | .jdict kvs => some (sumEntries target (kvs.map (fun kv => JVal.jstr kv.1)))
    | .jstr s => some (sumEntries target (s.data.map (fun c => JVal.jstr c.toString)))
    | _ => none
  else if trace_method = "debug_trace" then
    match trace_payload with
    | .jdict kvs => debugTop target (kvs.map Prod.snd)
    | .jlist xs => debugTop target xs
    | _ => some 0
  else some 0

end ScanPublic

namespace HighPerf

/-- count_internal_receives of scan_eth_highperf_api.py (lines 128-173);
the trace_block branch runs only under isinstance(payload, list), so any
non-list payload leaves the count at 0. -/
def count_internal_receives (trace_method : String) (payload : JVal)
    (target : String) : Option Int :=
  let tgt := pyLower target
  if trace_method = "trace_block" then
    match payload with
    | .jlist ts => some (sumEntries tgt ts)
    | _ => some 0
  else if trace_method = "debug_trace" then
    match payload with
    | .jdict kvs => debugTop tgt (kvs.map Prod.snd)
    | .jlist xs => debugTop tgt xs
    | _ => some 0
  else some 0

end HighPerf

namespace ScanPublic

/-- try_trace_block of scan_eth_public_rpc.py (lines 137-161), branch 1:
the trace_block request succeeded (ra = some response, none models a
raised exception) and the response is a dict whose result entry is a
list; yields that list. -/
def traceShapeA (ra : Option JVal) : Option JVal :=
  match ra with
  | none => none
  | some r =>
    match r.asDict with
    | none => none
    | some d =>
      match (alookup d "result").getD .jnull with
      | .jlist xs => some (.jlist xs)
      | _ => none

/-- try_trace_block branch 2: the debug_traceBlockByNumber request
succeeded and the response is a dict containing a result key; yields the
value under that key (which may itself be null). -/
def traceShapeB (rb : Option JVal) : Option JVal :=
  match rb with
  | none => none
  | some r =>
    match r.asDict with
    | none => none
    | some d => alookup d "result"

/-- try_trace_block of scan_eth_public_rpc.py: tries trace_block first,
falls back to debug_traceBlockByNumber with callTracer, and returns the
unsupported marker (None, None) when both fail. ra and rb are the raw
outcomes of the two provider requests for this block. -/
def try_trace_block (ra rb : Option JVal) : Option String × Option JVal :=
  match traceShapeA ra with
  | some p => (some "trace_block", some p)
  | none =>
    match traceShapeB rb with
    | some p => (some "debug_trace", some p)
    | none => (none, none)

end ScanPublic

namespace HighPerf

/-- Outcome of one RPCClient._post call chain: result none models the
RuntimeError raised after the retry budget is exhausted; attempts is the
number of POST attempts made and rotations the number of endpoint
rotations performed. -/
structure PostOutcome where
  result : Option JVal
  attempts : Nat
  rotations : Nat
  endpointIdx : Nat

/-- The retry loop of RPCClient._post (scan_eth_highperf_api.py lines
66-81), for attempt in range(1, max_retries + 1). respond gives the
outcome of the POST on a given attempt number (none = transport failure);
fuel counts the attempts still available, so fuel = maxR - attempt + 1
throughout. On a failure the endpoint rotates when attempt >= 2 and the
pool has more than one endpoint. -/
def postAux (respond : Nat → Option JVal) (nE maxR : Nat) :
    Nat → Nat → Nat → Nat → PostOutcome
  | 0, _, idx, rot => ⟨none, maxR, rot, idx⟩
  | fuel + 1, attempt, idx, rot =>
    match respond attempt with
    | some v => ⟨some v, attempt, rot, idx⟩
    | none =>
      if attempt ≥ 2 ∧ nE > 1 then
        postAux respond nE maxR fuel (attempt + 1) ((idx + 1) % nE) (rot + 1)
      else
        postAux respond nE maxR fuel (attempt + 1) idx rot

/-- RPCClient._post: runs the retry loop from attempt 1 on endpoint index
0 with max_retries attempts of budget. -/
def RPCClient_post (respond : Nat → Option JVal) (nE maxR : Nat) : PostOutcome :=
  postAux respond nE maxR maxR 1 0 0

/-- Observable outcome of RPCClient.call: a raised exception with its
message, or the returned result value. -/
inductive CallOutcome where
  | raised (msg : String)
  | ok (v : JVal)

/-- Message of the fatal transport error raised by _post on exhaustion. -/
def transportErrMsg : String := "RPC POST failed after retries across endpoints"

/-- RPCClient.call (lines 84-89) applied to the outcome of _post: the
fatal transport error propagates; a well-formed response with an error
field raises the application-level RPC error; otherwise the result field
is returned (None when absent). A non-dict response raises at the
res.get attribute access. -/
def callWrap (r : Option JVal) : CallOutcome :=
  match r with
  | none => .raised transportErrMsg
  | some v =>
    match v.asDict with
    | some d =>
      match alookup d "error" with
      | some e => .raised ("RPC error: " ++ pyStr e)
      | none => .ok ((alookup d "result").getD .jnull)
    | none => .raised "AttributeError"

/-- try_trace_one_block of scan_eth_highperf_api.py (lines 228-238): the
first helper whose call does not raise wins; both raising yields the
unsupported marker (None, None). ca and cb are the call outcomes of
trace_block and debug_traceBlockByNumber for this block. -/
def try_trace_one_block (ca cb : CallOutcome) : Option String × Option JVal :=
  match ca with
  | .ok v => (some "trace_block", some v)
  | .raised _ =>
    match cb with
    | .ok v => (some "debug_trace", some v)
    | .raised _ => (none, none)

/-- Request ids issued by consecutive _next_id calls when the session
counter stands at s: the strictly increasing ids s+1, ..., s+n. -/
def mkReqIds (s : Int) (n : Nat) : List Int :=
  (List.range n).map (fun k => s + 1 + Int.ofNat k)

/-- The dict comprehension by_id = (item.get("id"): item for item in res)
of RPCClient.batch: every wire item must be a dict (a non-dict raises at
item.get, modelled by none); keys are the id values (None when absent). -/
def buildById : List JVal → Option (List (JVal × JVal))
  | [] => some []
  | item :: rest =>
    match item.asDict with
    | none => none
    | some d =>
      (buildById rest).map (fun tl => (((alookup d "id").getD .jnull), item) :: tl)

/-- Lookup in by_id: as in a Python dict built left to right, a later
item with the same id overwrites an earlier one. -/
def byIdLookup (m : List (JVal × JVal)) (k : JVal) : Option JVal :=
  match m with
  | [] => none
  | (k2, v) :: rest =>
    match byIdLookup rest k with
    | some r => some r
    | none => if k2.beq k then some v else none

/-- One element of the list RPCClient.batch returns: the result value on
success, or the error marker dict built when the response carries an
error field. -/
inductive BatchRes where
  | ok (v : JVal)
  | errMarker (e : JVal)

/-- Per-request interpretation in RPCClient.batch: the error marker when
"error" is a key of the matched item, else the result value (None when
absent, in particular for the empty default dict of an unmatched id). -/
def interpItem (d : List (String × JVal)) : BatchRes :=
  match alookup d "error" with
  | some e => .errMarker e
  | none => .ok ((alookup d "result").getD .jnull)

/-- RPCClient.batch (lines 92-111) after the POST: given the ids of the
issued requests and the wire response, re-associates each response to its
request by id. An empty call list returns [] before posting; a non-list
response raises (a batch-level error dict or an unexpected format). -/
def batch (reqIds : List Int) (res : JVal) : Option (List BatchRes) :=
  if reqIds.isEmpty then some []
  else
    match res with
    | .jlist items =>
      (buildById items).map (fun m =>
        reqIds.map (fun i =>
          match byIdLookup m (.jint i) with
          | some item => interpItem (item.asDict.getD [])
          | none => interpItem []))
    | _ => none

/-- The fixed batch window size of fetch_blocks. -/
def winSize : Nat := 20

/-- The effect of one fetch_window task on the pre-sized output buffer
(scan_eth_highperf_api.py lines 191-198): the window starting at index s
writes, for each position it covers, the block fetched for the requested
number at that position. f gives the per-number fetch result delivered by
the batched call (null for numbers the provider does not have). -/
def applyWindow (f : Nat → JVal) (nums : List Nat) (buf : Nat → JVal) (s : Nat) :
    Nat → JVal :=
  fun i =>
    if s ≤ i ∧ i < s + winSize ∧ i < nums.length then f (nums.getD i 0) else buf i

/-- The window start indices range(0, len(block_numbers), window). -/
def windowStarts (len : Nat) : List Nat :=
  (List.range ((len + (winSize - 1)) / winSize)).map (· * winSize)

/-- Executes the window tasks in the given completion order over the
buffer initialized to [None] * len. -/
def runWindows (f : Nat → JVal) (nums : List Nat) (order : List Nat) : Nat → JVal :=
  order.foldl (applyWindow f nums) (fun _ => .jnull)

/-- fetch_blocks (lines 183-202) with an explicit window completion
order: the final buffer read out positionally. -/
def fetch_blocks (f : Nat → JVal) (nums : List Nat) (order : List Nat) : List JVal :=
  (List.range nums.length).map (runWindows f nums order)

end HighPerf

/-- One AddressStats output row, shared by scan_range (scan_stats rows,
scan_eth_public_rpc.py lines 326-343) and classify_for_address
(batch_eth_stats_ai.py lines 147-157). eth_balance is kept in wei as an
integer (the float division by 1e18 and rounding are display conversions
outside the counting logic); none models a missing balance. -/
structure Row where
  address : String
  eth_balance : Option Int
  total_txs : Int
  sent_txs : Int
  received_txs : Int
  sent_to_contract_txs : Int
  received_from_contract_txs : Int
  external_txs : Int
  internal_txs : Int
  deriving DecidableEq

/-- Inserts a into the rendering of a Python set as a duplicate-free
list when not yet present. -/
def insertIfAbsent (l : List String) (a : String) : List String :=
  if a ∈ l then l else l ++ [a]

/-- Lexicographic order on character lists by code point, the order
Python sorted() applies to the address strings. -/
def charListLe : List Char → List Char → Bool
  | [], _ => true
  | _ :: _, [] => false
  | a :: as1, b :: bs1 =>
    if a.toNat < b.toNat then true
    else if b.toNat < a.toNat then false
    else charListLe as1 bs1

/-- Lexicographic string comparison by code points. -/
def strLe (a b : String) : Bool := charListLe a.data b.data

/-- Insertion step of an ascending insertion sort on strings. -/
def insertSorted (a : String) : List String → List String
  | [] => [a]
  | b :: rest => if strLe a b then a :: b :: rest else b :: insertSorted a rest

/-- Ascending sort, modelling Python sorted() on the observed-address
set. -/
def sortStrings (l : List String) : List String := l.foldr insertSorted []

namespace ScanPublic

/-- is_contract of scan_eth_public_rpc.py (lines 99-110). getCode is the
eth_getCode oracle keyed by the lowercased address (to_checksum_address
only normalizes letter case, so the cache key al.lower() coincides with
the lowercased input); none models a raised lookup error. The result
carries the classification, the updated cache and the number of code
lookups issued by this call; an overall none models the exception
propagating to the caller. -/
def is_contract (getCode : String → Option (List Nat)) (addr : String)
    (cache : String → Option Bool) :
    Option (Bool × (String → Option Bool) × Nat) :=
  if addr = "" then some (false, cache, 0)
  else
    let al := pyLower addr
    match cache al with
    | some b => some (b, cache, 0)
    | none =>
      match getCode al with
      | none => none
      | some code =>
        let ok := !code.isEmpty
        some (ok, (fun k => if k = al then some ok else cache k), 1)

/-- One transaction of a fetched block: the from and to fields (absent
values modelled by none; to is None for contract creations) and the
transaction hash as used for the receipt lookup. -/
structure Tx where
  frm : Option String
  toAddr : Option String
  hash : String

/-- The sender as the scan sees it: str(tx.get("from", "")).lower(). -/
def Tx.frmL (tx : Tx) : String := pyLower (tx.frm.getD "")

/-- The recipient as the scan sees it: str(tx.get("to") or "").lower(). -/
def Tx.toL (tx : Tx) : String := pyLower (tx.toAddr.getD "")

/-- Environment of one scan_range run: the fetched blocks per number, the
receipt status oracle (true = status 1), the code-lookup oracle for
is_contract, the raw outcomes of the two trace requests per block, and
the balance oracle in wei (none = lookup failure, stored as a missing
value). -/
structure ScanEnv where
  blocks : Nat → List Tx
  txStatus : String → Bool
  getCode : String → Option (List Nat)
  traceA : Nat → Option JVal
  traceB : Nat → Option JVal
  balance : String → Option Int

/-- The accumulator state of scan_range: the four per-address counter
dicts (with .get default 0), the observed-address set, and the shared
contract cache. -/
structure ScanState where
  sent : String → Int
  received : String → Int
  s2c : String → Int
  internal : String → Int
  seen : List String
  cache : String → Option Bool

/-- Increments a counter dict entry: d[k] = d.get(k, 0) + inc. -/
def bump (f : String → Int) (k : String) (inc : Int) : String → Int :=
  fun x => if x = k then f x + inc else f x

/-- The initial empty accumulator. -/
def initState : ScanState :=
  ⟨fun _ => 0, fun _ => 0, fun _ => 0, fun _ => 0, [], fun _ => none⟩

/-- Processing of one transaction in the external-aggregation loop of
scan_range (lines 268-295): skip when success checking rejects the
receipt; count the sender and recipient; on a nonempty recipient consult
is_contract and, when it classifies the recipient as a contract, credit
sent_to_contract_txs to the sender — a raised lookup error is swallowed
(except: pass) leaving the state as it stood. -/
def processTx (env : ScanEnv) (checkSuccess : Bool) (st : ScanState) (tx : Tx) :
    ScanState :=
  let frm := tx.frmL
  let toA := tx.toL
  if checkSuccess ∧ ¬ env.txStatus tx.hash then st
  else
    let st1 :=
      if frm ≠ "" then
        { st with seen := insertIfAbsent st.seen frm, sent := bump st.sent frm 1 }
      else st
    if toA ≠ "" then
      let st2 :=
        { st1 with seen := insertIfAbsent st1.seen toA,
                   received := bump st1.received toA 1 }
      match is_contract env.getCode toA st2.cache with
      | none => st2
      | some (b, cache2, _) =>
        { st2 with cache := cache2,
                   s2c := if b then bump st2.s2c frm 1 else st2.s2c }
    else st1

/-- The addresses that appeared in this block (lines 302-307): lowercased
senders and recipients whose raw field is truthy. -/
def addrsInBlock (txs : List Tx) : List String :=
  txs.foldl
    (fun acc tx =>
      let acc1 :=
        match tx.frm with
        | some s => if s ≠ "" then insertIfAbsent acc (pyLower s) else acc
        | none => acc
      match tx.toAddr with
      | some s => if s ≠ "" then insertIfAbsent acc1 (pyLower s) else acc1
      | none => acc1)
    []

/-- The per-block trace step of scan_range (lines 298-317): when the
trace attempt produced a truthy method and payload, count internal
receives for every address of the block; a raised count is swallowed for
that address, and a nonzero count is added to the internal counter and
marks the address as observed. The unsupported marker skips the block. -/
def processTrace (tr : Option String × Option JVal) (txs : List Tx)
    (st : ScanState) : ScanState :=
  match tr with
  | (some m, some p) =>
    if m ≠ "" ∧ p.truthy then
      (addrsInBlock txs).foldl
        (fun st a =>
          match count_internal_receives m p a with
          | none => st
          | some c =>
            if c ≠ 0 then
              { st with internal := bump st.internal a c,
                        seen := insertIfAbsent st.seen a }
            else st)
        st
    else st
  | _ => st

/-- Processing of one block: the external loop over its transactions,
then the optional trace step. -/
def processBlock (env : ScanEnv) (checkSuccess traceEnabled : Bool)
    (st : ScanState) (bn : Nat) : ScanState :=
  let txs := env.blocks bn
  let st1 := txs.foldl (processTx env checkSuccess) st
  if traceEnabled then
    processTrace (try_trace_block (env.traceA bn) (env.traceB bn)) txs st1
  else st1

/-- The scanned block numbers start..end inclusive. -/
def blockRange (s e : Nat) : List Nat := List.range' s (e + 1 - s)

/-- The accumulator after scanning the whole range. -/
def scanState (env : ScanEnv) (s e : Nat) (checkSuccess traceEnabled : Bool) :
    ScanState :=
  (blockRange s e).foldl (processBlock env checkSuccess traceEnabled) initState

/-- Builds the output row of one address (lines 327-343). -/
def mkRow (env : ScanEnv) (withBalances : Bool) (st : ScanState) (a : String) :
    Row :=
  let extSent := st.sent a
  let extRecv := st.received a
  let extToContract := st.s2c a
  let internalRecv := st.internal a
  { address := a
    eth_balance := if withBalances then env.balance a else none
    total_txs := extSent + extRecv + internalRecv
    sent_txs := extSent
    received_txs := extRecv
    sent_to_contract_txs := extToContract
    received_from_contract_txs := internalRecv
    external_txs := extSent + extRecv
    internal_txs := internalRecv }

/-- scan_range of scan_eth_public_rpc.py (lines 231-344): scans the
range, sorts the observed addresses, truncates them to balance_limit when
positive, and emits one row per remaining address. -/
def scan_range (env : ScanEnv) (start_block end_block : Nat)
    (check_success with_balances : Bool) (balance_limit : Nat)
    (trace_enabled : Bool) : List Row :=
  let st := scanState env start_block end_block check_success trace_enabled
  let addrList := sortStrings st.seen
  let addrList := if balance_limit > 0 then addrList.take balance_limit else addrList
  addrList.map (mkRow env with_balances st)

/-- Whether one transaction makes a count toward the observed set: it
passes the optional success filter and a is its nonempty lowercased
sender or recipient. -/
def txContributes (env : ScanEnv) (checkSuccess : Bool) (tx : Tx) (a : String) :
    Bool :=
  (!(checkSuccess && !env.txStatus tx.hash)) &&
    ((tx.frmL == a && tx.frmL != "") || (tx.toL == a && tx.toL != ""))

/-- Whether the trace step of a block marks a as observed: the trace
attempt yielded a truthy method and payload, a appeared in the block, and
its internal-receive count is a nonzero number (not a raised error). -/
def traceContributes (tr : Option String × Option JVal) (txs : List Tx)
    (a : String) : Bool :=
  match tr with
  | (some m, some p) =>
    (m != "") && p.truthy && (addrsInBlock txs).contains a &&
      (match count_internal_receives m p a with
       | some c => c != 0
       | none => false)
  | _ => false

/-- Whether scanning block bn observes address a. -/
def blockContributes (env : ScanEnv) (checkSuccess traceEnabled : Bool)
    (bn : Nat) (a : String) : Bool :=
  (env.blocks bn).any (fun tx => txContributes env checkSuccess tx a) ||
    (traceEnabled &&
      traceContributes (try_trace_block (env.traceA bn) (env.traceB bn))
        (env.blocks bn) a)

/-- Address a was observed during the scan: it appeared as a counted
sender or recipient, or as an internal-transfer recipient, in some block
of the range. -/
def observedB (env : ScanEnv) (s e : Nat) (checkSuccess traceEnabled : Bool)
    (a : String) : Bool :=
  (blockRange s e).any (fun bn => blockContributes env checkSuccess traceEnabled bn a)

end ScanPublic

namespace BatchStats

/-- One transaction record returned by the Etherscan account endpoints:
the isError flag (the string "1" marks a failed transaction) and the
from/to addresses. -/
structure ETx where
  isError : Option String
  frm : Option String
  toAddr : Option String

/-- The lowercased sender: (tx.get("from") or "").lower(). -/
def ETx.frmL (t : ETx) : String := pyLower (t.frm.getD "")

/-- The lowercased recipient: (tx.get("to") or "").lower(). -/
def ETx.toL (t : ETx) : String := pyLower (t.toAddr.getD "")

/-- is_contract of batch_eth_stats_ai.py (lines 45-57). codeResult gives
the result field of the proxy eth_getCode call ("0x" when absent); none
models a request exception surviving the backoff retries, which
propagates to the caller. An address is a contract when the code value is
neither null nor the empty-code string "0x". -/
def is_contract (codeResult : String → Option JVal) (address : String)
    (cache : String → Option Bool) :
    Option (Bool × (String → Option Bool) × Nat) :=
  let al := pyLower address
  match cache al with
  | some b => some (b, cache, 0)
  | none =>
    match codeResult al with
    | none => none
    | some code =>
      let ok := !(code.beq .jnull) && !(code.beq (.jstr "0x"))
      some (ok, (fun k => if k = al then some ok else cache k), 1)

/-- The external-transaction classification loop of classify_for_address
(lines 120-132), threading the sent/received/sent-to-contract counters
and the shared contract cache; none models an is_contract exception
aborting the whole address. -/
def classifyExtLoop (codeResult : String → Option JVal) (addr : String) :
    List ETx → Int × Int × Int × (String → Option Bool) →
    Option (Int × Int × Int × (String → Option Bool))
  | [], acc => some acc
  | tx :: rest, (se, re, sc, cache) =>
    if tx.isError = some "1" then classifyExtLoop codeResult addr rest (se, re, sc, cache)
    else
      let frm := tx.frmL
      let toA := tx.toL
      if frm = addr then
        if toA ≠ "" then
          match is_contract codeResult toA cache with
          | none => none
          | some (b, cache2, _) =>
            if b then classifyExtLoop codeResult addr rest (se, re, sc + 1, cache2)
            else classifyExtLoop codeResult addr rest (se + 1, re, sc, cache2)
        else classifyExtLoop codeResult addr rest (se, re, sc, cache)
      else if toA = addr then classifyExtLoop codeResult addr rest (se, re + 1, sc, cache)
      else classifyExtLoop codeResult addr rest (se, re, sc, cache)

/-- classify_for_address of batch_eth_stats_ai.py (lines 104-157) on the
success path of the balance and transaction fetches: ext and internalTxs
are the fetched external and internal transaction lists, balanceWei the
fetched balance. Returns the emitted row and the updated contract cache,
or none when a contract lookup raised (main then skips the address). -/
def classify_for_address (codeResult : String → Option JVal) (balanceWei : Int)
    (ext internalTxs : List ETx) (address : String)
    (cache : String → Option Bool) :
    Option (Row × (String → Option Bool)) :=
  let addr := pyLower address
  match classifyExtLoop codeResult addr ext (0, 0, 0, cache) with
  | none => none
  | some (se, re, sc, cache2) =>
    let rfc : Int :=
      (internalTxs.countP (fun t => !(t.isError == some "1") && (t.toL == addr)) : Nat)
    some
      ({ address := address
         eth_balance := some balanceWei
         total_txs := (ext.length : Int) + (internalTxs.length : Int)
         sent_txs := se
         received_txs := re
         sent_to_contract_txs := sc
         received_from_contract_txs := rfc
         external_txs := (ext.length : Int)
         internal_txs := (internalTxs.length : Int) }, cache2)

end BatchStats

/-- A one-transaction sample environment (block 5 holds one transaction
from 0xA to 0xB, code lookups yield empty code, tracing unsupported). -/
def sampleEnv : ScanPublic.ScanEnv :=
  { blocks := fun bn => if bn = 5 then [⟨some "0xA", some "0xB", "h1"⟩] else []
    txStatus := fun _ => true
    getCode := fun _ => some []
    traceA := fun _ => none
    traceB := fun _ => none
    balance := fun _ => none }

/-- Sample wire responses for a two-request batch: response 2 carries an
error field, response 1 a result. -/
def c2f : Int → List (String × JVal) := fun i =>
  if i = 2 then [("id", .jint i), ("error", .jstr "boom")]
  else [("id", .jint i), ("result", .jint (10 * i))]

/-! Theorems. -/

theorem parseDigitsAcc_append (dv : Char → Option Nat) (b : Nat)
    (l1 l2 : List Char) (acc : Nat) :
    parseDigitsAcc dv b acc (l1 ++ l2) =
      match parseDigitsAcc dv b acc l1 with
      | some a => parseDigitsAcc dv b a l2
      | none => none := by
  induction l1 generalizing acc with
  | nil => simp [parseDigitsAcc]
  | cons c cs ih =>
    simp only [List.cons_append, parseDigitsAcc]
    cases dv c with
    | some d => exact ih _
    | none => rfl

theorem parseAcc_baseDigits (dv : Char → Option Nat) (b : Nat) (hb : 2 ≤ b)
    (hdv : ∀ d, d < b → dv (Nat.digitChar d) = some d) (n : Nat) :
    ∀ acc, parseDigitsAcc dv b acc (baseDigits b n) =
      some (acc * b ^ (baseDigits b n).length + n) := by
  induction n using Nat.strong_induction_on with
  | _ n ih =>
    intro acc
    rw [baseDigits]
    split
    · next h =>
      have hn : n < b := by omega
      simp [parseDigitsAcc, hdv n hn]
    · next h =>
      rw [parseDigitsAcc_append]
      rw [ih (n / b) (Nat.div_lt_self (by omega) (by omega)) acc]
      have hm : n % b < b := Nat.mod_lt _ (by omega)
      simp only [parseDigitsAcc, hdv (n % b) hm, List.length_append,
        List.length_singleton]
      have hdm := Nat.div_add_mod n b
      have hexp : (acc * b ^ (baseDigits b (n / b)).length + n / b) * b + n % b
          = acc * (b ^ (baseDigits b (n / b)).length * b) + (b * (n / b) + n % b) := by
        ring
      rw [hexp, hdm, ← pow_succ]

theorem baseDigits_ne_nil (b n : Nat) : baseDigits b n ≠ [] := by
  rw [baseDigits]; split <;> simp

theorem parseDigits_baseDigits (dv : Char → Option Nat) (b : Nat) (hb : 2 ≤ b)
    (hdv : ∀ d, d < b → dv (Nat.digitChar d) = some d) (n : Nat) :
    parseDigits dv b (baseDigits b n) = some n := by
  cases h : baseDigits b n with
  | nil => exact absurd h (baseDigits_ne_nil b n)
  | cons c cs =>
    have := parseAcc_baseDigits dv b hb hdv n 0
    rw [h] at this
    simpa [parseDigits] using this

theorem hexDigitVal_digitChar (d : Nat) (hd : d < 16) :
    hexDigitVal (Nat.digitChar d) = some d := by
  interval_cases d <;> rfl

theorem decDigitVal_digitChar (d : Nat) (hd : d < 10) :
    decDigitVal (Nat.digitChar d) = some d := by
  interval_cases d <;> rfl

theorem pyInt16_hexEncode (n : Nat) : pyInt16 (hexEncode n) = some (n : Int) := by
  have h := parseDigits_baseDigits hexDigitVal 16 (by omega) hexDigitVal_digitChar n
  simp [pyInt16, hexEncode, strip0x, h]

theorem startsWith0x_hexEncode (n : Nat) : startsWith0x (hexEncode n) = true := rfl

theorem baseDigits_mem (b n : Nat) (hb : 2 ≤ b) :
    ∀ c ∈ baseDigits b n, ∃ d, d < b ∧ c = Nat.digitChar d := by
  induction n using Nat.strong_induction_on with
  | _ n ih =>
    intro c hc
    rw [baseDigits] at hc
    split at hc
    · next h =>
      simp at hc
      exact ⟨n, by omega, hc⟩
    · next h =>
      rcases List.mem_append.1 hc with h1 | h1
      · exact ih (n / b) (Nat.div_lt_self (by omega) (by omega)) c h1
      · simp at h1
        exact ⟨n % b, Nat.mod_lt _ (by omega), h1⟩

theorem digitChar_ne_x (d : Nat) (hd : d < 10) : Nat.digitChar d ≠ 'x' := by
  interval_cases d <;> decide

theorem startsWith0x_decEncode (n : Nat) : startsWith0x (decEncode n) = false := by
  unfold startsWith0x decEncode
  split
  · next heq =>
    exfalso
    have hx : 'x' ∈ baseDigits 10 n := by
      have : (⟨baseDigits 10 n⟩ : String).data = baseDigits 10 n := rfl
      rw [this] at heq
      rw [heq]; simp
    obtain ⟨d, hd, hc⟩ := baseDigits_mem 10 n (by omega) 'x' hx
    exact digitChar_ne_x d hd hc.symm
  · rfl

theorem decEncode_ne_empty (n : Nat) : decEncode n ≠ "" := by
  intro h
  have := congrArg String.data h
  simp only [decEncode] at this
  exact baseDigits_ne_nil 10 n this

theorem pyIntDec_decEncode (n : Nat) : pyIntDec (decEncode n) = some (n : Int) := by
  have h := parseDigits_baseDigits decDigitVal 10 (by omega) decDigitVal_digitChar n
  simp [pyIntDec, decEncode, h]

theorem traceStrVal_hexEncode (n : Nat) : traceStrVal (hexEncode n) = some (n : Int) := by
  simp [traceStrVal, startsWith0x_hexEncode, pyInt16_hexEncode]

theorem traceStrVal_decEncode (n : Nat) : traceStrVal (decEncode n) = some (n : Int) := by
  simp [traceStrVal, startsWith0x_decEncode, decEncode_ne_empty, pyIntDec_decEncode]

/-- C8: for every value n, the hexadecimal-string, decimal-string and
native-integer encodings of n normalize identically, so a trace node or
entry carrying any of the three encodings is counted identically by
count_internal_receives (in both scanners); in particular "0x5", "5" and
5 all count as the value 5. -/
theorem claim_C8 (n : Nat) (toAddr tgt : String) (cs : List JVal) :
    (dfsDebug tgt (.jdict [("to", .jstr toAddr), ("value", .jint (n : Int)),
        ("calls", .jlist cs)]) =
      dfsDebug tgt (.jdict [("to", .jstr toAddr), ("value", .jstr (hexEncode n)),
        ("calls", .jlist cs)]) ∧
     dfsDebug tgt (.jdict [("to", .jstr toAddr), ("value", .jint (n : Int)),
        ("calls", .jlist cs)]) =
      dfsDebug tgt (.jdict [("to", .jstr toAddr), ("value", .jstr (decEncode n)),
        ("calls", .jlist cs)])) ∧
    (entryCount tgt (.jdict [("type", .jstr "call"),
        ("action", .jdict [("to", .jstr toAddr), ("value", .jint (n : Int))])]) =
      entryCount tgt (.jdict [("type", .jstr "call"),
        ("action", .jdict [("to", .jstr toAddr), ("value", .jstr (hexEncode n))])]) ∧
     entryCount tgt (.jdict [("type", .jstr "call"),
        ("action", .jdict [("to", .jstr toAddr), ("value", .jint (n : Int))])]) =
      entryCount tgt (.jdict [("type", .jstr "call"),
        ("action", .jdict [("to", .jstr toAddr), ("value", .jstr (decEncode n))])])) ∧
    (ScanPublic.count_internal_receives "trace_block"
        (.jlist [.jdict [("type", .jstr "call"),
          ("action", .jdict [("to", .jstr toAddr), ("value", .jint (n : Int))])]]) tgt =
      ScanPublic.count_internal_receives "trace_block"
        (.jlist [.jdict [("type", .jstr "call"),
          ("action", .jdict [("to", .jstr toAddr), ("value", .jstr (hexEncode n))])]]) tgt ∧
     HighPerf.count_internal_receives "trace_block"
        (.jlist [.jdict [("type", .jstr "call"),
          ("action", .jdict [("to", .jstr toAddr), ("value", .jint (n : Int))])]]) tgt =
      HighPerf.count_internal_receives "trace_block"
        (.jlist [.jdict [("type", .jstr "call"),
          ("action", .jdict [("to", .jstr toAddr), ("value", .jstr (decEncode n))])]]) tgt) := by
  have hhex : debugVal (.jstr (hexEncode n)) = some (n : Int) := traceStrVal_hexEncode n
  have hdec : debugVal (.jstr (decEncode n)) = some (n : Int) := traceStrVal_decEncode n
  have hdfs : ∀ v : JVal, debugVal v = some (n : Int) →
      dfsDebug tgt (.jdict [("to", .jstr toAddr), ("value", .jint (n : Int)),
        ("calls", .jlist cs)]) =
      dfsDebug tgt (.jdict [("to", .jstr toAddr), ("value", v), ("calls", .jlist cs)]) := by
    intro v hv
    have unfoldNode : ∀ w : JVal,
        dfsDebug tgt (.jdict [("to", .jstr toAddr), ("value", w), ("calls", .jlist cs)]) =
          match debugVal w with
          | none => 0
          | some val => (if pyLower toAddr = tgt ∧ 0 < val then 1 else 0) +
              (if (JVal.jlist cs).truthy then dfsList tgt cs else 0) := by
      intro w
      simp [dfsDebug, alookup, dfsCalls, dfsChildren, pyStr]
    rw [unfoldNode, unfoldNode, hv]
    simp [debugVal]
  have hentry : ∀ (t : String) (s : String), traceStrVal s = some (n : Int) →
      entryCount t (.jdict [("type", .jstr "call"),
        ("action", .jdict [("to", .jstr toAddr), ("value", .jint (n : Int))])]) =
      entryCount t (.jdict [("type", .jstr "call"),
        ("action", .jdict [("to", .jstr toAddr), ("value", .jstr s)])]) := by
    intro t s hs
    simp [entryCount, alookup, JVal.asDict, JVal.truthy, pyStr, hs]
  refine ⟨⟨hdfs _ hhex, hdfs _ hdec⟩,
          ⟨hentry tgt _ (traceStrVal_hexEncode n), hentry tgt _ (traceStrVal_decEncode n)⟩,
          ?_, ?_⟩
  · have h := hentry (pyLower tgt) _ (traceStrVal_hexEncode n)
    simp [ScanPublic.count_internal_receives, sumEntries, h]
  · have h := hentry (pyLower tgt) _ (traceStrVal_decEncode n)
    simp [HighPerf.count_internal_receives, sumEntries, h]

theorem postAux_firstK (v : JVal) (nE maxR k : Nat) :
    ∀ fuel attempt idx rot, attempt + fuel = maxR + 1 → attempt ≤ k + 1 → k < maxR →
    (HighPerf.postAux (fun a => if a ≤ k then none else some v) nE maxR fuel attempt idx rot).result
        = some v ∧
    (HighPerf.postAux (fun a => if a ≤ k then none else some v) nE maxR fuel attempt idx rot).attempts
        = k + 1 ∧
    (HighPerf.postAux (fun a => if a ≤ k then none else some v) nE maxR fuel attempt idx rot).rotations
        = rot + (if 1 < nE then k + 1 - max attempt 2 else 0) := by
  intro fuel
  induction fuel with
  | zero =>
    intro attempt idx rot h1 h2 h3
    exfalso; omega
  | succ fuel ih =>
    intro attempt idx rot h1 h2 h3
    by_cases hk : attempt ≤ k
    · have hr : (fun a => if a ≤ k then none else some v) attempt = none := by simp [hk]
      simp only [HighPerf.postAux, hr]
      by_cases hrot : attempt ≥ 2 ∧ nE > 1
      · rw [if_pos hrot]
        obtain ⟨r1, r2, r3⟩ :=
          ih (attempt + 1) ((idx + 1) % nE) (rot + 1) (by omega) (by omega) h3
        refine ⟨r1, r2, ?_⟩
        rw [r3]
        have h4 : 1 < nE := hrot.2
        simp only [h4, if_true]
        omega
      · rw [if_neg hrot]
        obtain ⟨r1, r2, r3⟩ := ih (attempt + 1) idx rot (by omega) (by omega) h3
        refine ⟨r1, r2, ?_⟩
        rw [r3]
        by_cases h4 : 1 < nE <;> simp only [h4, if_true, if_false] <;> omega
    · have ha : attempt = k + 1 := by omega
      have hr : (fun a => if a ≤ k then none else some v) attempt = some v := by
        simp [ha]
      simp only [HighPerf.postAux, hr]
      refine ⟨by trivial, by omega, ?_⟩
      by_cases h4 : 1 < nE <;> simp only [h4, if_true, if_false] <;> omega

/-- C4 (corrected): a transport failing deterministically on the first
k < max_retries attempts and succeeding on attempt k+1 makes
RPCClient._post return that success after exactly k+1 attempts (k
retries); the endpoint rotates on every failing attempt at index 2 and
above, so with more than one endpoint in the pool there are exactly
k - 1 rotations (0 with a single endpoint), not at most one. -/
theorem claim_C4 (k maxR nE : Nat) (v : JVal) (hk : k < maxR) :
    (HighPerf.RPCClient_post (fun a => if a ≤ k then none else some v) nE maxR).result
        = some v ∧
    (HighPerf.RPCClient_post (fun a => if a ≤ k then none else some v) nE maxR).attempts
        = k + 1 ∧
    (HighPerf.RPCClient_post (fun a => if a ≤ k then none else some v) nE maxR).rotations
        = (if 1 < nE then k - 1 else 0) := by
  obtain ⟨r1, r2, r3⟩ :=
    postAux_firstK v nE maxR k maxR 1 0 0 (by omega) (by omega) hk
  refine ⟨r1, r2, ?_⟩
  rw [HighPerf.RPCClient_post, r3]
  by_cases h4 : 1 < nE <;> simp only [h4, if_true, if_false] <;> omega

/-- C4 witness: two failures then success within a budget of five
attempts over a two-endpoint pool gives success, three attempts and
exactly one rotation. -/
theorem claim_C4_witness :
    (HighPerf.RPCClient_post (fun a => if a ≤ 2 then none else some .jnull) 2 5).result
        = some .jnull ∧
    (HighPerf.RPCClient_post (fun a => if a ≤ 2 then none else some .jnull) 2 5).attempts
        = 3 ∧
    (HighPerf.RPCClient_post (fun a => if a ≤ 2 then none else some .jnull) 2 5).rotations
        = 1 := by
  have h := claim_C4 2 5 2 .jnull (by omega)
  simpa using h

/-- C4 counterexample: with two endpoints, three deterministic failures
followed by success on attempt four (k = 3 < max_retries = 5) performs
two endpoint rotations, contradicting the claimed at most one. -/
theorem claim_C4_counterexample :
    (HighPerf.RPCClient_post (fun a => if a ≤ 3 then none else some .jnull) 2 5).result
        = some .jnull ∧
    (HighPerf.RPCClient_post (fun a => if a ≤ 3 then none else some .jnull) 2 5).attempts
        = 4 ∧
    (HighPerf.RPCClient_post (fun a => if a ≤ 3 then none else some .jnull) 2 5).rotations
        = 2 ∧ ¬ (2 : Nat) ≤ 1 := by
  refine ⟨rfl, rfl, rfl, by omega⟩

theorem postAux_allFail (nE maxR : Nat) : ∀ fuel attempt idx rot,
    (HighPerf.postAux (fun _ => none) nE maxR fuel attempt idx rot).result = none ∧
    (HighPerf.postAux (fun _ => none) nE maxR fuel attempt idx rot).attempts = maxR := by
  intro fuel
  induction fuel with
  | zero => intro attempt idx rot; exact ⟨rfl, rfl⟩
  | succ fuel ih =>
    intro attempt idx rot
    simp only [HighPerf.postAux]
    by_cases hrot : attempt ≥ 2 ∧ nE > 1
    · rw [if_pos hrot]; exact ih _ _ _
    · rw [if_neg hrot]; exact ih _ _ _

/-- C7: a transport failing on every attempt makes RPCClient._post raise
the fatal RuntimeError after exactly max_retries attempts, and
RPCClient.call propagates that error rather than absorbing it. -/
theorem claim_C7 (nE maxR : Nat) :
    (HighPerf.RPCClient_post (fun _ => none) nE maxR).result = none ∧
    (HighPerf.RPCClient_post (fun _ => none) nE maxR).attempts = maxR ∧
    HighPerf.callWrap (HighPerf.RPCClient_post (fun _ => none) nE maxR).result
      = .raised HighPerf.transportErrMsg := by
  obtain ⟨h1, h2⟩ := postAux_allFail nE maxR maxR 1 0 0
  exact ⟨h1, h2, by simp only [HighPerf.RPCClient_post, h1]; rfl⟩

/-- C6: the public-RPC trace attempt tries trace_block first (a
well-shaped flat-list response wins regardless of the fallback), falls
back to debug_traceBlockByNumber on any failure of the first, returns the
unsupported marker (None, None) when both fail, and in that case the
per-block trace step of scan_range leaves the accumulator unchanged
(the scan skips tracing and continues); the high-performance scanner
falls back in the same order on raised calls. -/
theorem claim_C6 (ra rb : Option JVal) (ca cb : HighPerf.CallOutcome) :
    (∀ p, ScanPublic.traceShapeA ra = some p →
      ScanPublic.try_trace_block ra rb = (some "trace_block", some p)) ∧
    (ScanPublic.traceShapeA ra = none → ∀ p, ScanPublic.traceShapeB rb = some p →
      ScanPublic.try_trace_block ra rb = (some "debug_trace", some p)) ∧
    (ScanPublic.traceShapeA ra = none → ScanPublic.traceShapeB rb = none →
      ScanPublic.try_trace_block ra rb = (none, none) ∧
      ∀ txs st, ScanPublic.processTrace (ScanPublic.try_trace_block ra rb) txs st = st) ∧
    (∀ v, ca = .ok v →
      HighPerf.try_trace_one_block ca cb = (some "trace_block", some v)) ∧
    (∀ m v, ca = .raised m → cb = .ok v →
      HighPerf.try_trace_one_block ca cb = (some "debug_trace", some v)) ∧
    (∀ m m2, ca = .raised m → cb = .raised m2 →
      HighPerf.try_trace_one_block ca cb = (none, none)) := by
  refine ⟨?_, ?_, ?_, ?_, ?_, ?_⟩
  · intro p hp
    simp [ScanPublic.try_trace_block, hp]
  · intro ha p hp
    simp [ScanPublic.try_trace_block, ha, hp]
  · intro ha hb
    have he : ScanPublic.try_trace_block ra rb = (none, none) := by
      simp [ScanPublic.try_trace_block, ha, hb]
    exact ⟨he, fun txs st => by rw [he]; rfl⟩
  · intro v hv
    simp [HighPerf.try_trace_one_block, hv]
  · intro m v hm hv
    simp [HighPerf.try_trace_one_block, hm, hv]
  · intro m m2 hm hm2
    simp [HighPerf.try_trace_one_block, hm, hm2]

/-- C6 witness: a well-shaped trace_block response wins; a failed first
attempt with a well-shaped debug response falls back; two failures give
the unsupported marker and the trace step leaves the state unchanged. -/
theorem claim_C6_witness :
    ScanPublic.try_trace_block (some (.jdict [("result", .jlist [.jint 1])])) none
      = (some "trace_block", some (.jlist [.jint 1])) ∧
    ScanPublic.try_trace_block none (some (.jdict [("result", .jdict [])]))
      = (some "debug_trace", some (.jdict [])) ∧
    ScanPublic.try_trace_block none none = (none, none) ∧
    ScanPublic.processTrace (ScanPublic.try_trace_block none none) [] ScanPublic.initState
      = ScanPublic.initState ∧
    HighPerf.try_trace_one_block (.ok (.jlist [])) (.raised "e")
      = (some "trace_block", some (.jlist [])) ∧
    HighPerf.try_trace_one_block (.raised "e1") (.raised "e2") = (none, none) := by
  refine ⟨(claim_C6 (some (.jdict [("result", .jlist [.jint 1])])) none
            (.ok (.jlist [])) (.raised "e")).1 _ rfl,
          (claim_C6 none (some (.jdict [("result", .jdict [])]))
            (.ok (.jlist [])) (.raised "e")).2.1 rfl _ rfl,
          ((claim_C6 none none (.ok (.jlist [])) (.raised "e")).2.2.1 rfl rfl).1,
          ((claim_C6 none none (.ok (.jlist [])) (.raised "e")).2.2.1 rfl rfl).2 [] _,
          (claim_C6 none none (.ok (.jlist [])) (.raised "e")).2.2.2.1 _ rfl,
          (claim_C6 none none (.raised "e1") (.raised "e2")).2.2.2.2.2 _ _ rfl rfl⟩

/-- C9: for an address already present in the contract cache, both
is_contract implementations return the cached boolean with zero code
lookups and an unchanged cache, and a single call never overwrites an
existing cache entry. -/
theorem claim_C9 (getCode : String → Option (List Nat))
    (codeResult : String → Option JVal) (addr : String)
    (cache : String → Option Bool) (b : Bool) :
    (addr ≠ "" → cache (pyLower addr) = some b →
      ScanPublic.is_contract getCode addr cache = some (b, cache, 0)) ∧
    (∀ bb cache2 m, ScanPublic.is_contract getCode addr cache = some (bb, cache2, m) →
      ∀ k v, cache k = some v → cache2 k = some v) ∧
    (cache (pyLower addr) = some b →
      BatchStats.is_contract codeResult addr cache = some (b, cache, 0)) ∧
    (∀ bb cache2 m, BatchStats.is_contract codeResult addr cache = some (bb, cache2, m) →
      ∀ k v, cache k = some v → cache2 k = some v) := by
  refine ⟨?_, ?_, ?_, ?_⟩
  · intro hne hc
    simp [ScanPublic.is_contract, hne, hc]
  · intro bb cache2 m hcall k v hk
    unfold ScanPublic.is_contract at hcall
    by_cases hne : addr = ""
    · simp [hne] at hcall
      rw [← hcall.2.1]; exact hk
    · simp only [hne, if_false] at hcall
      cases hcache : cache (pyLower addr) with
      | some b0 =>
        rw [hcache] at hcall
        simp at hcall
        rw [← hcall.2.1]; exact hk
      | none =>
        rw [hcache] at hcall
        cases hcode : getCode (pyLower addr) with
        | none => rw [hcode] at hcall; simp at hcall
        | some code =>
          rw [hcode] at hcall
          simp at hcall
          rw [← hcall.2.1]
          have hkk : k ≠ pyLower addr := by
            intro heq; rw [heq, hcache] at hk; exact Option.noConfusion hk
          simp [hkk, hk]
  · intro hc
    simp [BatchStats.is_contract, hc]
  · intro bb cache2 m hcall k v hk
    simp only [BatchStats.is_contract] at hcall
    cases hcache : cache (pyLower addr) with
    | some b0 =>
      rw [hcache] at hcall
      simp at hcall
      rw [← hcall.2.1]; exact hk
    | none =>
      rw [hcache] at hcall
      cases hcode : codeResult (pyLower addr) with
      | none => rw [hcode] at hcall; simp at hcall
      | some code =>
        rw [hcode] at hcall
        simp at hcall
        rw [← hcall.2.1]
        have hkk : k ≠ pyLower addr := by
          intro heq; rw [heq, hcache] at hk; exact Option.noConfusion hk
        simp [hkk, hk]

/-- C9 witness: with 0xa cached as a contract, classifying 0xA again
returns the cached true with zero lookups, and a fresh classification of
0xb leaves the 0xa entry intact in both implementations. -/
theorem claim_C9_witness :
    ScanPublic.is_contract (fun _ => some [1]) "0xA"
        (fun k => if k = "0xa" then some true else none)
      = some (true, (fun k => if k = "0xa" then some true else none), 0) ∧
    BatchStats.is_contract (fun _ => some (.jstr "0x")) "0xA"
        (fun k => if k = "0xa" then some true else none)
      = some (true, (fun k => if k = "0xa" then some true else none), 0) := by
  exact ⟨(claim_C9 (fun _ => some [1]) (fun _ => some (.jstr "0x")) "0xA"
            (fun k => if k = "0xa" then some true else none) true).1
            (by decide) (by rfl),
         (claim_C9 (fun _ => some [1]) (fun _ => some (.jstr "0x")) "0xA"
            (fun k => if k = "0xa" then some true else none) true).2.2.1 (by rfl)⟩

mutual
theorem dfsDebug_nonneg (tgt : String) : ∀ v : JVal, 0 ≤ dfsDebug tgt v
  | .jdict nd => by
    rw [dfsDebug]
    cases hdv : debugVal ((alookup nd "value").getD (.jstr "0x0")) with
    | none => simp
    | some val =>
      simp only []
      have h1 := dfsCalls_nonneg tgt nd
      have h0 : (0 : Int) ≤
          (if pyLower (pyStr ((alookup nd "to").getD (.jstr ""))) = tgt ∧ val > 0
           then 1 else 0) := by
        split <;> omega
      exact add_nonneg h0 h1
  | .jnull => by simp [dfsDebug]
  | .jint n => by simp [dfsDebug]
  | .jstr s => by simp [dfsDebug]
  | .jlist xs => by simp [dfsDebug]

theorem dfsCalls_nonneg (tgt : String) : ∀ kvs : List (String × JVal), 0 ≤ dfsCalls tgt kvs
  | [] => by simp [dfsCalls]
  | (k, v) :: rest => by
    rw [dfsCalls]
    split
    · split
      · exact dfsChildren_nonneg tgt v
      · exact le_refl 0
    · exact dfsCalls_nonneg tgt rest

theorem dfsChildren_nonneg (tgt : String) : ∀ v : JVal, 0 ≤ dfsChildren tgt v
  | .jlist cs => by rw [dfsChildren]; exact dfsList_nonneg tgt cs
  | .jnull => by simp [dfsChildren]
  | .jint n => by simp [dfsChildren]
  | .jstr s => by simp [dfsChildren]
  | .jdict kvs => by simp [dfsChildren]

theorem dfsList_nonneg (tgt : String) : ∀ l : List JVal, 0 ≤ dfsList tgt l
  | [] => by simp [dfsList]
  | c :: cs => by
    rw [dfsList]
    exact add_nonneg (dfsDebug_nonneg tgt c) (dfsList_nonneg tgt cs)
end

theorem entryCount_cases (tgt : String) (t : JVal) :
    entryCount tgt t = none ∨ entryCount tgt t = some 0 ∨ entryCount tgt t = some 1 := by
  unfold entryCount
  repeat' (first | split | simp only [])
  all_goals (first | (split_ifs <;> simp) | simp)

theorem entryCount_getD_nonneg (tgt : String) (t : JVal) :
    0 ≤ (entryCount tgt t).getD 0 := by
  rcases entryCount_cases tgt t with h | h | h <;> simp [h]

theorem sumEntries_nonneg (tgt : String) (ts : List JVal) : 0 ≤ sumEntries tgt ts := by
  induction ts with
  | nil => simp [sumEntries]
  | cons t rest ih =>
    rw [sumEntries]
    exact add_nonneg (entryCount_getD_nonneg tgt t) ih

theorem sumEntries_append (tgt : String) (xs ys : List JVal) :
    sumEntries tgt (xs ++ ys) = sumEntries tgt xs + sumEntries tgt ys := by
  induction xs with
  | nil => simp [sumEntries]
  | cons x rest ih =>
    simp only [List.cons_append, sumEntries]
    rw [show List.append rest ys = rest ++ ys from rfl, ih]
    ring

theorem rootCount_nonneg (tgt : String) (r : JVal) : 0 ≤ rootCount tgt r := by
  cases r with
  | jdict kvs => exact dfsDebug_nonneg tgt (.jdict kvs)
  | jnull => simp [rootCount]
  | jint n => simp [rootCount]
  | jstr str => simp [rootCount]
  | jlist xs => simp [rootCount]

theorem debugTop_nonneg (tgt : String) : ∀ (vs : List JVal) (c : Int),
    debugTop tgt vs = some c → 0 ≤ c := by
  intro vs
  induction vs with
  | nil => intro c hc; simp [debugTop] at hc; omega
  | cons v rest ih =>
    intro c hc
    simp only [debugTop] at hc
    cases hd : v.asDict with
    | none => rw [hd] at hc; exact Option.noConfusion hc
    | some vd =>
      rw [hd] at hc
      cases hr : debugTop tgt rest with
      | none => rw [hr] at hc; exact Option.noConfusion hc
      | some s =>
        rw [hr] at hc
        simp at hc
        rw [← hc]
        exact add_nonneg (rootCount_nonneg tgt _) (ih s hr)

theorem debugTop_total (tgt : String) : ∀ vs : List JVal,
    (∀ v ∈ vs, ∃ d, v = JVal.jdict d) →
    ∃ c, debugTop tgt vs = some c ∧ 0 ≤ c := by
  intro vs
  induction vs with
  | nil => intro _; exact ⟨0, rfl, le_refl 0⟩
  | cons v rest ih =>
    intro h
    obtain ⟨d, rfl⟩ := h v (List.mem_cons_self v rest)
    obtain ⟨s, hs, hnn⟩ := ih (fun w hw => h w (List.mem_cons_of_mem _ hw))
    simp only [debugTop, JVal.asDict, hs, Option.map_some']
    exact ⟨_, rfl, add_nonneg (rootCount_nonneg tgt _) hnn⟩

theorem countIR_public_trace_list (t : String) (ts : List JVal) :
    ScanPublic.count_internal_receives "trace_block" (.jlist ts) t
      = some (sumEntries (pyLower t) ts) := rfl

theorem countIR_public_trace_dict (t : String) (kvs : List (String × JVal)) :
    ScanPublic.count_internal_receives "trace_block" (.jdict kvs) t
      = some (sumEntries (pyLower t) (kvs.map (fun kv => JVal.jstr kv.1))) := rfl

theorem countIR_public_trace_str (t s : String) :
    ScanPublic.count_internal_receives "trace_block" (.jstr s) t
      = some (sumEntries (pyLower t) (s.data.map (fun c => JVal.jstr c.toString))) := rfl

theorem countIR_public_debug_list (t : String) (xs : List JVal) :
    ScanPublic.count_internal_receives "debug_trace" (.jlist xs) t
      = debugTop (pyLower t) xs := rfl

theorem countIR_public_debug_dict (t : String) (kvs : List (String × JVal)) :
    ScanPublic.count_internal_receives "debug_trace" (.jdict kvs) t
      = debugTop (pyLower t) (kvs.map Prod.snd) := rfl

theorem countIR_public_other (m : String) (p : JVal) (t : String)
    (h1 : m ≠ "trace_block") (h2 : m ≠ "debug_trace") :
    ScanPublic.count_internal_receives m p t = some 0 := by
  unfold ScanPublic.count_internal_receives
  simp [h1, h2]

theorem countIR_highperf_other (m : String) (p : JVal) (t : String)
    (h1 : m ≠ "trace_block") (h2 : m ≠ "debug_trace") :
    HighPerf.count_internal_receives m p t = some 0 := by
  unfold HighPerf.count_internal_receives
  simp [h1, h2]

/-- C10 (corrected): count_internal_receives returns a non-negative count
and raises no exception for list payloads under the trace_block tag and
for dict or list payloads under the debug_trace tag provided every dict
value or list item is itself a dict (a non-dict element raises at
item.get, outside any try); any other tag yields 0 whatever the payload;
a malformed trace_block entry contributes 0 to the count. -/
theorem claim_C10 (m : String) (p : JVal) (t : String) :
    (∀ c, ScanPublic.count_internal_receives m p t = some c → 0 ≤ c) ∧
    (∀ c, HighPerf.count_internal_receives m p t = some c → 0 ≤ c) ∧
    (m ≠ "trace_block" → m ≠ "debug_trace" →
      ScanPublic.count_internal_receives m p t = some 0 ∧
      HighPerf.count_internal_receives m p t = some 0) ∧
    (∀ ts : List JVal, ∃ c,
      ScanPublic.count_internal_receives "trace_block" (.jlist ts) t = some c ∧ 0 ≤ c) ∧
    (∀ (xs ys : List JVal) (e : JVal), entryCount (pyLower t) e = none →
      ScanPublic.count_internal_receives "trace_block" (.jlist (xs ++ e :: ys)) t
        = ScanPublic.count_internal_receives "trace_block" (.jlist (xs ++ ys)) t) ∧
    (∀ vs : List JVal, (∀ v ∈ vs, ∃ d, v = JVal.jdict d) →
      ∃ c, ScanPublic.count_internal_receives "debug_trace" (.jlist vs) t = some c ∧ 0 ≤ c) ∧
    (∀ kvs : List (String × JVal), (∀ kv ∈ kvs, ∃ d, kv.2 = JVal.jdict d) →
      ∃ c, ScanPublic.count_internal_receives "debug_trace" (.jdict kvs) t = some c ∧ 0 ≤ c)   := by
  refine ⟨?_, ?_, ?_, ?_, ?_, ?_, ?_⟩
  · intro c hc
    by_cases h1 : m = "trace_block"
    · subst h1
      cases p with
      | jnull => rw [show ScanPublic.count_internal_receives "trace_block" .jnull t = none from rfl] at hc; exact Option.noConfusion hc
      | jint n => rw [show ScanPublic.count_internal_receives "trace_block" (.jint n) t = none from rfl] at hc; exact Option.noConfusion hc
      | jstr s =>
        rw [countIR_public_trace_str] at hc
        simp at hc; rw [← hc]; exact sumEntries_nonneg _ _
      | jlist ts =>
        rw [countIR_public_trace_list] at hc
        simp at hc; rw [← hc]; exact sumEntries_nonneg _ _
      | jdict kvs =>
        rw [countIR_public_trace_dict] at hc
        simp at hc; rw [← hc]; exact sumEntries_nonneg _ _
    · by_cases h2 : m = "debug_trace"
      · subst h2
        cases p with
        | jnull => rw [show ScanPublic.count_internal_receives "debug_trace" .jnull t = some 0 from rfl] at hc; simp at hc; omega
        | jint n => rw [show ScanPublic.count_internal_receives "debug_trace" (.jint n) t = some 0 from rfl] at hc; simp at hc; omega
        | jstr s => rw [show ScanPublic.count_internal_receives "debug_trace" (.jstr s) t = some 0 from rfl] at hc; simp at hc; omega
        | jlist xs => rw [countIR_public_debug_list] at hc; exact debugTop_nonneg _ xs c hc
        | jdict kvs => rw [countIR_public_debug_dict] at hc; exact debugTop_nonneg _ _ c hc
      · rw [countIR_public_other m p t h1 h2] at hc
        simp at hc; omega
  · intro c hc
    by_cases h1 : m = "trace_block"
    · subst h1
      cases p with
      | jnull => rw [show HighPerf.count_internal_receives "trace_block" .jnull t = some 0 from rfl] at hc; simp at hc; omega
      | jint n => rw [show HighPerf.count_internal_receives "trace_block" (.jint n) t = some 0 from rfl] at hc; simp at hc; omega
      | jstr s => rw [show HighPerf.count_internal_receives "trace_block" (.jstr s) t = some 0 from rfl] at hc; simp at hc; omega
      | jdict kvs => rw [show HighPerf.count_internal_receives "trace_block" (.jdict kvs) t = some 0 from rfl] at hc; simp at hc; omega
      | jlist ts =>
        rw [show HighPerf.count_internal_receives "trace_block" (.jlist ts) t = some (sumEntries (pyLower t) ts) from rfl] at hc
        simp at hc; rw [← hc]; exact sumEntries_nonneg _ _
    · by_cases h2 : m = "debug_trace"
      · subst h2
        cases p with
        | jnull => rw [show HighPerf.count_internal_receives "debug_trace" .jnull t = some 0 from rfl] at hc; simp at hc; omega
        | jint n => rw [show HighPerf.count_internal_receives "debug_trace" (.jint n) t = some 0 from rfl] at hc; simp at hc; omega
        | jstr s => rw [show HighPerf.count_internal_receives "debug_trace" (.jstr s) t = some 0 from rfl] at hc; simp at hc; omega
        | jlist xs => rw [show HighPerf.count_internal_receives "debug_trace" (.jlist xs) t = debugTop (pyLower t) xs from rfl] at hc; exact debugTop_nonneg _ xs c hc
        | jdict kvs => rw [show HighPerf.count_internal_receives "debug_trace" (.jdict kvs) t = debugTop (pyLower t) (kvs.map Prod.snd) from rfl] at hc; exact debugTop_nonneg _ _ c hc
      · rw [countIR_highperf_other m p t h1 h2] at hc
        simp at hc; omega
  · intro h1 h2
    exact ⟨countIR_public_other m p t h1 h2, countIR_highperf_other m p t h1 h2⟩
  · intro ts
    exact ⟨sumEntries (pyLower t) ts, countIR_public_trace_list t ts, sumEntries_nonneg _ _⟩
  · intro xs ys e he
    rw [countIR_public_trace_list, countIR_public_trace_list,
      sumEntries_append, sumEntries_append, sumEntries, he]
    simp
  · intro vs h
    obtain ⟨c, hc, hnn⟩ := debugTop_total (pyLower t) vs h
    exact ⟨c, by rw [countIR_public_debug_list]; exact hc, hnn⟩
  · intro kvs h
    have h2 : ∀ v ∈ kvs.map Prod.snd, ∃ d, v = JVal.jdict d := by
      intro v hv
      obtain ⟨kv, hkv, rfl⟩ := List.mem_map.1 hv
      exact h kv hkv
    obtain ⟨c, hc, hnn⟩ := debugTop_total (pyLower t) (kvs.map Prod.snd) h2
    exact ⟨c, by rw [countIR_public_debug_dict]; exact hc, hnn⟩
/-- C10 witness: the empty trace_block list counts 0; a malformed entry
(an integer where a trace dict is expected) is skipped; a one-node
all-dict debug payload is counted without raising. -/
theorem claim_C10_witness :
    (ScanPublic.count_internal_receives "eth_other" (.jint 3) "0xa" = some 0 ∧
      HighPerf.count_internal_receives "eth_other" (.jint 3) "0xa" = some 0) ∧
    ScanPublic.count_internal_receives "trace_block" (.jlist [.jint 7]) "0xa"
      = ScanPublic.count_internal_receives "trace_block" (.jlist []) "0xa" ∧
    (∃ c, ScanPublic.count_internal_receives "debug_trace"
        (.jlist [.jdict [("to", .jstr "0xa"), ("value", .jint 2)]]) "0xa"
        = some c ∧ 0 ≤ c) := by
  refine ⟨(claim_C10 "eth_other" (.jint 3) "0xa").2.2.1 (by decide) (by decide),
          ?_, ?_⟩
  · have h := (claim_C10 "x" (.jnull) "0xa").2.2.2.2.1 [] [] (.jint 7) (by rfl)
    simpa using h
  · exact (claim_C10 "x" (.jnull) "0xa").2.2.2.2.2.1
      [.jdict [("to", .jstr "0xa"), ("value", .jint 2)]]
      (by intro v hv; simp at hv; exact ⟨_, hv⟩)

/-- C10 counterexample: under the debug_trace tag a list payload whose
item is not a dict raises (item.get on an int) in both implementations,
refuting totality for arbitrary dict-or-list payloads. -/
theorem claim_C10_counterexample :
    ScanPublic.count_internal_receives "debug_trace" (.jlist [.jint 5]) "0xa" = none ∧
    HighPerf.count_internal_receives "debug_trace" (.jlist [.jint 5]) "0xa" = none := by
  exact ⟨rfl, rfl⟩

/-- C1 (corrected): every row emitted by scan_range satisfies both
invariants total_txs = external_txs + internal_txs and external_txs =
sent_txs + received_txs; every row emitted by classify_for_address
satisfies the first invariant, but not in general the second, because
there external_txs counts all fetched external transactions while
sent_txs excludes failed and sent-to-contract transactions. -/
theorem claim_C1 :
    (∀ (env : ScanPublic.ScanEnv) (s e : Nat) (cs wb : Bool) (blim : Nat) (te : Bool)
       (row : Row), row ∈ ScanPublic.scan_range env s e cs wb blim te →
      row.total_txs = row.external_txs + row.internal_txs ∧
      row.external_txs = row.sent_txs + row.received_txs) ∧
    (∀ (codeResult : String → Option JVal) (bal : Int) (ext itx : List BatchStats.ETx)
       (addr : String) (cache : String → Option Bool) (row : Row)
       (cache2 : String → Option Bool),
      BatchStats.classify_for_address codeResult bal ext itx addr cache
          = some (row, cache2) →
      row.total_txs = row.external_txs + row.internal_txs) := by
  constructor
  · intro env s e cs wb blim te row hrow
    unfold ScanPublic.scan_range at hrow
    simp only [List.mem_map] at hrow
    obtain ⟨a, _, rfl⟩ := hrow
    unfold ScanPublic.mkRow
    constructor <;> simp
  · intro codeResult bal ext itx addr cache row cache2 hcl
    simp only [BatchStats.classify_for_address] at hcl
    cases hloop : BatchStats.classifyExtLoop codeResult (pyLower addr) ext
        (0, 0, 0, cache) with
    | none => simp [hloop] at hcl
    | some acc =>
      obtain ⟨se, re, sc, cc⟩ := acc
      rw [hloop] at hcl
      simp only [Option.some.injEq, Prod.mk.injEq] at hcl
      rw [← hcl.1]

/-- C1 witness: the scan of one block with one transaction from 0xA to a
non-contract 0xB emits a sender row satisfying both invariants; a
classify run with one successful ordinary transaction satisfies the
total-transactions invariant. -/
theorem claim_C1_witness :
    (⟨"0xa", none, 1, 1, 0, 0, 0, 1, 0⟩ : Row)
        ∈ ScanPublic.scan_range sampleEnv 5 5 false false 0 false ∧
    ((⟨"0xa", none, 1, 1, 0, 0, 0, 1, 0⟩ : Row).total_txs
        = (⟨"0xa", none, 1, 1, 0, 0, 0, 1, 0⟩ : Row).external_txs
          + (⟨"0xa", none, 1, 1, 0, 0, 0, 1, 0⟩ : Row).internal_txs ∧
     (⟨"0xa", none, 1, 1, 0, 0, 0, 1, 0⟩ : Row).external_txs
        = (⟨"0xa", none, 1, 1, 0, 0, 0, 1, 0⟩ : Row).sent_txs
          + (⟨"0xa", none, 1, 1, 0, 0, 0, 1, 0⟩ : Row).received_txs) ∧
    ((⟨"0xA", some 7, 1, 1, 0, 0, 0, 1, 0⟩ : Row).total_txs
        = (⟨"0xA", some 7, 1, 1, 0, 0, 0, 1, 0⟩ : Row).external_txs
          + (⟨"0xA", some 7, 1, 1, 0, 0, 0, 1, 0⟩ : Row).internal_txs) := by
  have hmem : (⟨"0xa", none, 1, 1, 0, 0, 0, 1, 0⟩ : Row)
      ∈ ScanPublic.scan_range sampleEnv 5 5 false false 0 false := by
    decide
  refine ⟨hmem, claim_C1.1 sampleEnv 5 5 false false 0 false _ hmem, ?_⟩
  exact claim_C1.2 (fun _ => some (.jstr "0x")) 7 [⟨none, some "0xA", some "0xC"⟩] []
    "0xA" (fun _ => none) _ _ rfl

/-- C1 counterexample: classify_for_address on one successful transaction
sent from the address to a contract emits a row with external_txs = 1 but
sent_txs + received_txs = 0, violating the claimed second invariant. -/
theorem claim_C1_counterexample :
    ((BatchStats.classify_for_address (fun _ => some (.jstr "0x6060")) 0
        [⟨none, some "0xA", some "0xC"⟩] [] "0xA" (fun _ => none)).map
      (fun rc => decide (rc.1.external_txs = rc.1.sent_txs + rc.1.received_txs)))
      = some false := by
  rfl

theorem beq_jint (a b : Int) : JVal.beq (.jint a) (.jint b) = (a == b) := by
  rw [JVal.beq]

theorem mkReqIds_succ (s : Int) (n : Nat) :
    HighPerf.mkReqIds s (n + 1) = HighPerf.mkReqIds s n ++ [s + 1 + n] := by
  unfold HighPerf.mkReqIds
  rw [List.range_succ, List.map_append]
  simp

theorem mem_mkReqIds (s : Int) (n : Nat) (i : Int) :
    i ∈ HighPerf.mkReqIds s n ↔ ∃ k : Nat, k < n ∧ i = s + 1 + k := by
  induction n with
  | zero => simp [HighPerf.mkReqIds]
  | succ n ih =>
    rw [mkReqIds_succ]
    simp only [List.mem_append, List.mem_singleton, ih]
    constructor
    · rintro (⟨k, hk, rfl⟩ | rfl)
      · exact ⟨k, by omega, rfl⟩
      · exact ⟨n, by omega, rfl⟩
    · rintro ⟨k, hk, rfl⟩
      by_cases hkn : k < n
      · exact Or.inl ⟨k, hkn, rfl⟩
      · have hk2 : k = n := by omega
        subst hk2
        exact Or.inr rfl

theorem mkReqIds_nodup (s : Int) (n : Nat) : (HighPerf.mkReqIds s n).Nodup := by
  induction n with
  | zero => simp [HighPerf.mkReqIds]
  | succ n ih =>
    rw [mkReqIds_succ, List.nodup_append]
    refine ⟨ih, List.nodup_singleton _, ?_⟩
    intro a ha hb
    simp only [List.mem_singleton] at hb
    subst hb
    rw [mem_mkReqIds] at ha
    obtain ⟨k, hk, hke⟩ := ha
    omega

theorem batch_eval (reqIds : List Int) (items : List JVal) (h : ¬ reqIds.isEmpty) :
    HighPerf.batch reqIds (.jlist items) =
      (HighPerf.buildById items).map (fun m =>
        reqIds.map (fun i =>
          match HighPerf.byIdLookup m (.jint i) with
          | some item => HighPerf.interpItem (item.asDict.getD [])
          | none => HighPerf.interpItem [])) := by
  unfold HighPerf.batch
  rw [if_neg (by simpa using h)]

theorem buildById_allDicts : ∀ items : List JVal,
    (∀ it ∈ items, ∃ d, it = JVal.jdict d) →
    HighPerf.buildById items =
      some (items.map (fun it => (((alookup (it.asDict.getD []) "id").getD .jnull), it))) := by
  intro items
  induction items with
  | nil => intro _; rfl
  | cons item rest ih =>
    intro h
    obtain ⟨d, rfl⟩ := h item (List.mem_cons_self item rest)
    simp only [HighPerf.buildById, JVal.asDict,
      ih (fun it hit => h it (List.mem_cons_of_mem _ hit)), Option.map_some']
    rfl

theorem byIdLookup_mem : ∀ (m : List (JVal × JVal)) (k r : JVal),
    HighPerf.byIdLookup m k = some r → ∃ p ∈ m, p.1.beq k = true ∧ p.2 = r := by
  intro m
  induction m with
  | nil => intro k r h; exact Option.noConfusion h
  | cons p rest ih =>
    intro k r h
    rw [HighPerf.byIdLookup] at h
    cases hrest : HighPerf.byIdLookup rest k with
    | some r2 =>
      rw [hrest] at h
      obtain ⟨q, hq, hbeq, hv⟩ := ih k r2 hrest
      cases h
      exact ⟨q, List.mem_cons_of_mem _ hq, hbeq, hv⟩
    | none =>
      rw [hrest] at h
      by_cases hb : p.1.beq k = true
      · rw [if_pos hb] at h
        cases h
        exact ⟨p, List.mem_cons_self _ _, hb, rfl⟩
      · rw [if_neg hb] at h
        exact Option.noConfusion h

theorem byIdLookup_of_unique : ∀ (m : List (JVal × JVal)) (k v : JVal),
    k.beq k = true → (k, v) ∈ m → (∀ p ∈ m, p.1.beq k = true → p = (k, v)) →
    HighPerf.byIdLookup m k = some v := by
  intro m
  induction m with
  | nil => intro k v _ h _; exact absurd h (List.not_mem_nil _)
  | cons p rest ih =>
    intro k v hrefl hmem huniq
    obtain ⟨k2, v2⟩ := p
    rw [HighPerf.byIdLookup]
    cases hrest : HighPerf.byIdLookup rest k with
    | some r =>
      obtain ⟨q, hq, hbeq, hv⟩ := byIdLookup_mem rest k r hrest
      have hqv := huniq q (List.mem_cons_of_mem _ hq) hbeq
      rw [hqv] at hv
      simp only at hv
      rw [← hv]
    | none =>
      rcases List.mem_cons.1 hmem with heq | hmem2
      · injection heq with h1 h2
        subst h1; subst h2
        simp [hrefl]
      · have := ih k v hrefl hmem2 (fun q hq hb => huniq q (List.mem_cons_of_mem _ hq) hb)
        exact absurd this (by rw [hrest]; exact fun h => Option.noConfusion h)

/-- C2: for every batched call list and every permutation of the wire
response array carrying exactly one well-formed response per request id,
RPCClient.batch returns a list of the same length as the request list
whose i-th element is the interpretation of the response whose id equals
the i-th request id: its result value on success, the error marker when
that response carries an error field. -/
theorem claim_C2 (s : Int) (n : Nat) (f : Int → List (String × JVal))
    (items : List JVal)
    (hid : ∀ i ∈ HighPerf.mkReqIds s n, alookup (f i) "id" = some (.jint i))
    (hperm : items.Perm ((HighPerf.mkReqIds s n).map (fun i => JVal.jdict (f i)))) :
    HighPerf.batch (HighPerf.mkReqIds s n) (.jlist items)
      = some ((HighPerf.mkReqIds s n).map (fun i => HighPerf.interpItem (f i))) ∧
    ((HighPerf.mkReqIds s n).map (fun i => HighPerf.interpItem (f i))).length = n := by
  constructor
  · by_cases hn : n = 0
    · subst hn
      have : HighPerf.mkReqIds s 0 = [] := rfl
      rw [this]
      rfl
    · have hne : ¬ (HighPerf.mkReqIds s n).isEmpty := by
        unfold HighPerf.mkReqIds
        cases n with
        | zero => exact absurd rfl hn
        | succ n2 => simp [List.range_succ]
      rw [batch_eval _ _ hne]
      have hdicts : ∀ it ∈ items, ∃ d, it = JVal.jdict d := by
        intro it hit
        have := hperm.mem_iff.1 hit
        obtain ⟨i, _, rfl⟩ := List.mem_map.1 this
        exact ⟨f i, rfl⟩
      rw [buildById_allDicts items hdicts, Option.map_some']
      congr 1
      apply List.map_congr_left
      intro i hi
      have hlook : HighPerf.byIdLookup
          (items.map (fun it => (((alookup (it.asDict.getD []) "id").getD .jnull), it)))
          (.jint i) = some (JVal.jdict (f i)) := by
        apply byIdLookup_of_unique
        · rw [beq_jint]; simp
        · have hmem : JVal.jdict (f i) ∈ items := by
            rw [hperm.mem_iff]
            exact List.mem_map.2 ⟨i, hi, rfl⟩
          have hkey : ((alookup ((JVal.jdict (f i)).asDict.getD []) "id").getD .jnull)
              = JVal.jint i := by
            show (alookup (f i) "id").getD .jnull = JVal.jint i
            rw [hid i hi]
            rfl
          have hx := List.mem_map_of_mem
            (fun it => (((alookup (it.asDict.getD []) "id").getD .jnull), it)) hmem
          simp only at hx
          rw [hkey] at hx
          exact hx
        · intro p hp hbeq
          obtain ⟨it, hit, rfl⟩ := List.mem_map.1 hp
          have := hperm.mem_iff.1 hit
          obtain ⟨j, hj, rfl⟩ := List.mem_map.1 this
          have hkey : (alookup ((JVal.jdict (f j)).asDict.getD []) "id").getD .jnull
              = JVal.jint j := by
            rw [show (JVal.jdict (f j)).asDict.getD [] = f j from rfl, hid j hj]
            rfl
          rw [hkey] at hbeq ⊢
          rw [beq_jint] at hbeq
          have : j = i := by simpa using hbeq
          subst this
          rfl
      rw [hlook]
      rfl
  · simp [HighPerf.mkReqIds]

/-- C2 witness: a two-request batch whose wire responses arrive in
reverse order, the second carrying an error field, is re-associated by
id: the first slot gets the result 10, the second the error marker. -/
theorem claim_C2_witness :
    HighPerf.batch (HighPerf.mkReqIds 0 2) (.jlist [.jdict (c2f 2), .jdict (c2f 1)])
      = some [.ok (.jint 10), .errMarker (.jstr "boom")] := by
  have h := (claim_C2 0 2 c2f [.jdict (c2f 2), .jdict (c2f 1)]
    (by
      intro i hi
      rw [mem_mkReqIds] at hi
      obtain ⟨k, hk, rfl⟩ := hi
      interval_cases k <;> rfl)
    (by
      have : (HighPerf.mkReqIds 0 2).map (fun i => JVal.jdict (c2f i))
          = [.jdict (c2f 1), .jdict (c2f 2)] := rfl
      rw [this]
      exact List.Perm.swap _ _ _)).1
  rw [h]
  rfl

theorem applyWindow_preserve (f : Nat → JVal) (nums : List Nat)
    (buf : Nat → JVal) (s i : Nat) (h : buf i = f (nums.getD i 0)) :
    HighPerf.applyWindow f nums buf s i = f (nums.getD i 0) := by
  unfold HighPerf.applyWindow
  split
  · rfl
  · exact h

theorem foldWindows_preserve (f : Nat → JVal) (nums : List Nat) (i : Nat) :
    ∀ (order : List Nat) (buf : Nat → JVal), buf i = f (nums.getD i 0) →
    (order.foldl (HighPerf.applyWindow f nums) buf) i = f (nums.getD i 0) := by
  intro order
  induction order with
  | nil => intro buf h; exact h
  | cons s rest ih =>
    intro buf h
    exact ih _ (applyWindow_preserve f nums buf s i h)

theorem foldWindows_covered (f : Nat → JVal) (nums : List Nat) (i : Nat)
    (hi : i < nums.length) :
    ∀ (order : List Nat) (buf : Nat → JVal), (i / HighPerf.winSize * HighPerf.winSize) ∈ order →
    (order.foldl (HighPerf.applyWindow f nums) buf) i = f (nums.getD i 0) := by
  intro order
  induction order with
  | nil => intro buf h; exact absurd h (List.not_mem_nil _)
  | cons s rest ih =>
    intro buf hmem
    rcases List.mem_cons.1 hmem with heq | hmem2
    · subst heq
      rw [List.foldl_cons]
      apply foldWindows_preserve
      unfold HighPerf.applyWindow
      rw [if_pos]
      refine ⟨Nat.div_mul_le_self i _, ?_, hi⟩
      have hdm := Nat.div_add_mod i HighPerf.winSize
      have hlt : i % HighPerf.winSize < HighPerf.winSize :=
        Nat.mod_lt _ (by unfold HighPerf.winSize; omega)
      have hcomm : (i / HighPerf.winSize) * HighPerf.winSize
          = HighPerf.winSize * (i / HighPerf.winSize) := Nat.mul_comm _ _
      omega
    · exact ih _ hmem2

theorem cov_mem_windowStarts (i len : Nat) (h : i < len) :
    i / HighPerf.winSize * HighPerf.winSize ∈ HighPerf.windowStarts len := by
  unfold HighPerf.windowStarts
  refine List.mem_map.2 ⟨i / HighPerf.winSize, List.mem_range.2 ?_, rfl⟩
  have h1 : (i + HighPerf.winSize) / HighPerf.winSize
      = i / HighPerf.winSize + 1 := Nat.add_div_right i (by unfold HighPerf.winSize; omega)
  have h2 : (i + HighPerf.winSize) / HighPerf.winSize
      ≤ (len + (HighPerf.winSize - 1)) / HighPerf.winSize := by
    apply Nat.div_le_div_right
    unfold HighPerf.winSize
    unfold HighPerf.winSize at h1
    omega
  omega

/-- C5: for every list of block numbers and every completion order of the
batch windows (any permutation of the window start set), fetch_blocks
returns a list of the same length as the input whose i-th element is the
fetch result for the i-th requested number, so output order matches input
order regardless of which window completes first. -/
theorem claim_C5 (f : Nat → JVal) (nums : List Nat) (order : List Nat)
    (hperm : order.Perm (HighPerf.windowStarts nums.length)) :
    HighPerf.fetch_blocks f nums order = nums.map f ∧
    (HighPerf.fetch_blocks f nums order).length = nums.length := by
  have key : ∀ i, i < nums.length →
      HighPerf.runWindows f nums order i = f (nums.getD i 0) := by
    intro i hi
    apply foldWindows_covered f nums i hi
    exact hperm.mem_iff.2 (cov_mem_windowStarts i nums.length hi)
  constructor
  · apply List.ext_getElem
    · simp [HighPerf.fetch_blocks]
    · intro i h1 h2
      simp only [HighPerf.fetch_blocks, List.getElem_map, List.getElem_range]
      have hi : i < nums.length := by
        simpa [HighPerf.fetch_blocks] using h1
      rw [key i hi]
      exact congrArg f (List.getD_eq_getElem nums 0 hi)
  · simp [HighPerf.fetch_blocks]

/-- C5 witness: 25 requested numbers span two windows; executing the
second window before the first still returns the fetches in request
order. -/
theorem claim_C5_witness :
    HighPerf.fetch_blocks (fun n => .jint n) (List.range 25) [20, 0]
      = (List.range 25).map (fun n => .jint n) := by
  exact (claim_C5 (fun n => .jint n) (List.range 25) [20, 0] (by decide)).1

theorem mem_insertIfAbsent (l : List String) (x a : String) :
    a ∈ insertIfAbsent l x ↔ a ∈ l ∨ a = x := by
  unfold insertIfAbsent
  split
  · next h =>
    constructor
    · exact Or.inl
    · rintro (ha | rfl)
      · exact ha
      · exact h
  · simp

theorem nodup_insertIfAbsent (l : List String) (x : String) (h : l.Nodup) :
    (insertIfAbsent l x).Nodup := by
  unfold insertIfAbsent
  split
  · exact h
  · next hx => simp [List.nodup_append, h, hx]

theorem insertSorted_perm (a : String) : ∀ l : List String,
    (insertSorted a l).Perm (a :: l) := by
  intro l
  induction l with
  | nil => exact List.Perm.refl _
  | cons b rest ih =>
    unfold insertSorted
    split
    · exact List.Perm.refl _
    · exact (ih.cons b).trans (List.Perm.swap a b rest)

theorem sortStrings_perm (l : List String) : (sortStrings l).Perm l := by
  induction l with
  | nil => exact List.Perm.refl _
  | cons x rest ih =>
    have : sortStrings (x :: rest) = insertSorted x (sortStrings rest) := rfl
    rw [this]
    exact (insertSorted_perm x _).trans (ih.cons x)

theorem processTx_seen_eq (env : ScanPublic.ScanEnv) (cs : Bool)
    (st : ScanPublic.ScanState) (tx : ScanPublic.Tx) :
    (ScanPublic.processTx env cs st tx).seen =
      if cs && !env.txStatus tx.hash then st.seen
      else if tx.toL ≠ "" then
        insertIfAbsent
          (if tx.frmL ≠ "" then insertIfAbsent st.seen tx.frmL else st.seen) tx.toL
      else if tx.frmL ≠ "" then insertIfAbsent st.seen tx.frmL else st.seen := by
  simp only [ScanPublic.processTx]
  by_cases hskip : cs ∧ ¬ env.txStatus tx.hash
  · have hb : (cs && !env.txStatus tx.hash) = true := by
      rcases hskip with ⟨h1, h2⟩
      have h3 : env.txStatus tx.hash = false := by
        cases h : env.txStatus tx.hash
        · rfl
        · exact absurd h h2
      simp [h1, h3]
    rw [if_pos hskip, if_pos hb]
  · have hb : ¬ ((cs && !env.txStatus tx.hash) = true) := by
      intro hcon
      rw [Bool.and_eq_true] at hcon
      have h3 : env.txStatus tx.hash = false := by
        cases h : env.txStatus tx.hash
        · rfl
        · rw [h] at hcon; exact absurd hcon.2 (by simp)
      exact hskip ⟨hcon.1, by simp [h3]⟩
    rw [if_neg hskip, if_neg hb]
    by_cases ht : tx.toL ≠ ""
    · rw [if_pos ht, if_pos ht]
      by_cases hf : tx.frmL ≠ ""
      · rw [if_pos hf, if_pos hf]
        split <;> rfl
      · rw [if_neg hf, if_neg hf]
        split <;> rfl
    · rw [if_neg ht, if_neg ht]
      by_cases hf : tx.frmL ≠ ""
      · rw [if_pos hf, if_pos hf]
      · rw [if_neg hf, if_neg hf]

theorem processTx_seen (env : ScanPublic.ScanEnv) (cs : Bool)
    (st : ScanPublic.ScanState) (tx : ScanPublic.Tx) (a : String) :
    a ∈ (ScanPublic.processTx env cs st tx).seen ↔
      a ∈ st.seen ∨ ScanPublic.txContributes env cs tx a = true := by
  rw [processTx_seen_eq]
  unfold ScanPublic.txContributes
  cases hcs : cs <;> cases hstat : env.txStatus tx.hash <;>
    by_cases hf : tx.frmL = "" <;> by_cases ht : tx.toL = "" <;>
    simp [hf, ht, mem_insertIfAbsent, @eq_comm String a] <;> tauto

theorem processTx_seen_nodup (env : ScanPublic.ScanEnv) (cs : Bool)
    (st : ScanPublic.ScanState) (tx : ScanPublic.Tx) (h : st.seen.Nodup) :
    (ScanPublic.processTx env cs st tx).seen.Nodup := by
  rw [processTx_seen_eq]
  split
  · exact h
  · split <;> split <;>
      first
        | exact h
        | exact nodup_insertIfAbsent _ _ h
        | exact nodup_insertIfAbsent _ _ (nodup_insertIfAbsent _ _ h)

theorem foldTx_seen (env : ScanPublic.ScanEnv) (cs : Bool) (a : String) :
    ∀ (txs : List ScanPublic.Tx) (st : ScanPublic.ScanState),
    a ∈ (txs.foldl (ScanPublic.processTx env cs) st).seen ↔
      a ∈ st.seen ∨ ∃ tx ∈ txs, ScanPublic.txContributes env cs tx a = true := by
  intro txs
  induction txs with
  | nil => intro st; simp
  | cons tx rest ih =>
    intro st
    rw [List.foldl_cons, ih, processTx_seen]
    constructor
    · rintro ((h | h) | ⟨tx2, h1, h2⟩)
      · exact Or.inl h
      · exact Or.inr ⟨tx, List.mem_cons_self _ _, h⟩
      · exact Or.inr ⟨tx2, List.mem_cons_of_mem _ h1, h2⟩
    · rintro (h | ⟨tx2, h1, h2⟩)
      · exact Or.inl (Or.inl h)
      · rcases List.mem_cons.1 h1 with rfl | h3
        · exact Or.inl (Or.inr h2)
        · exact Or.inr ⟨tx2, h3, h2⟩

theorem foldTx_seen_nodup (env : ScanPublic.ScanEnv) (cs : Bool) :
    ∀ (txs : List ScanPublic.Tx) (st : ScanPublic.ScanState), st.seen.Nodup →
    (txs.foldl (ScanPublic.processTx env cs) st).seen.Nodup := by
  intro txs
  induction txs with
  | nil => intro st h; exact h
  | cons tx rest ih =>
    intro st h
    exact ih _ (processTx_seen_nodup env cs st tx h)

theorem processTrace_seen (tr : Option String × Option JVal)
    (txs : List ScanPublic.Tx) (st : ScanPublic.ScanState) (a : String) :
    a ∈ (ScanPublic.processTrace tr txs st).seen ↔
      a ∈ st.seen ∨ ScanPublic.traceContributes tr txs a = true := by
  unfold ScanPublic.processTrace ScanPublic.traceContributes
  obtain ⟨m?, p?⟩ := tr
  cases m? with
  | none => simp
  | some m =>
    cases p? with
    | none => simp
    | some p =>
      simp only []
      by_cases hg : m ≠ "" ∧ p.truthy
      · rw [if_pos hg]
        have hfold : ∀ (addrs : List String) (st : ScanPublic.ScanState),
            a ∈ (addrs.foldl (fun st a2 =>
              match ScanPublic.count_internal_receives m p a2 with
              | none => st
              | some c =>
                if c ≠ 0 then
                  { st with internal := ScanPublic.bump st.internal a2 c,
                            seen := insertIfAbsent st.seen a2 }
                else st) st).seen ↔
              a ∈ st.seen ∨ (a ∈ addrs ∧
                (match ScanPublic.count_internal_receives m p a with
                 | some c => c ≠ 0
                 | none => False)) := by
          intro addrs
          induction addrs with
          | nil => intro st; simp
          | cons x rest ih =>
            intro st
            rw [List.foldl_cons, ih]
            cases hcx : ScanPublic.count_internal_receives m p x with
            | none =>
              simp only []
              constructor
              · rintro (h | h)
                · exact Or.inl h
                · refine Or.inr ⟨List.mem_cons_of_mem _ h.1, h.2⟩
              · rintro (h | ⟨h1, h2⟩)
                · exact Or.inl h
                · rcases List.mem_cons.1 h1 with rfl | h3
                  · rw [hcx] at h2; exact absurd h2 (by simp)
                  · exact Or.inr ⟨h3, h2⟩
            | some c =>
              simp only []
              by_cases hc : c ≠ 0
              · rw [if_pos hc]
                simp only [mem_insertIfAbsent]
                constructor
                · rintro ((h | rfl) | h)
                  · exact Or.inl h
                  · exact Or.inr ⟨List.mem_cons_self _ _, by rw [hcx]; exact hc⟩
                  · exact Or.inr ⟨List.mem_cons_of_mem _ h.1, h.2⟩
                · rintro (h | ⟨h1, h2⟩)
                  · exact Or.inl (Or.inl h)
                  · rcases List.mem_cons.1 h1 with rfl | h3
                    · exact Or.inl (Or.inr rfl)
                    · exact Or.inr ⟨h3, h2⟩
              · rw [if_neg hc]
                constructor
                · rintro (h | h)
                  · exact Or.inl h
                  · exact Or.inr ⟨List.mem_cons_of_mem _ h.1, h.2⟩
                · rintro (h | ⟨h1, h2⟩)
                  · exact Or.inl h
                  · rcases List.mem_cons.1 h1 with rfl | h3
                    · rw [hcx] at h2; exact absurd h2 hc
                    · exact Or.inr ⟨h3, h2⟩
        rw [hfold]
        have hg1 : (m != "") = true := by simpa using hg.1
        have hmatch : ∀ o : Option Int,
            ((match o with
              | some c => c ≠ 0
              | none => False) : Prop) ↔
            ((match o with
              | some c => c != 0
              | none => false) = true) := by
          intro o
          cases o with
          | none => simp
          | some c => simp
        simp [hg1, hg.2, List.elem_iff, hmatch (ScanPublic.count_internal_receives m p a)]
      · rw [if_neg hg]
        have hnot : ¬ ((m != "") && p.truthy &&
            (ScanPublic.addrsInBlock txs).contains a &&
            (match ScanPublic.count_internal_receives m p a with
             | some c => c != 0
             | none => false)) = true := by
          intro hcon
          simp only [Bool.and_eq_true] at hcon
          exact hg ⟨by simpa using hcon.1.1.1, hcon.1.1.2⟩
        constructor
        · exact Or.inl
        · rintro (h | h)
          · exact h
          · exact absurd h hnot

theorem processTrace_seen_nodup (tr : Option String × Option JVal)
    (txs : List ScanPublic.Tx) (st : ScanPublic.ScanState) (h : st.seen.Nodup) :
    (ScanPublic.processTrace tr txs st).seen.Nodup := by
  unfold ScanPublic.processTrace
  obtain ⟨m?, p?⟩ := tr
  cases m? with
  | none => exact h
  | some m =>
    cases p? with
    | none => exact h
    | some p =>
      simp only []
      split
      · have hfold : ∀ (addrs : List String) (st : ScanPublic.ScanState),
            st.seen.Nodup →
            ((addrs.foldl (fun st a2 =>
              match ScanPublic.count_internal_receives m p a2 with
              | none => st
              | some c =>
                if c ≠ 0 then
                  { st with internal := ScanPublic.bump st.internal a2 c,
                            seen := insertIfAbsent st.seen a2 }
                else st) st).seen).Nodup := by
          intro addrs
          induction addrs with
          | nil => intro st h2; exact h2
          | cons x rest ih =>
            intro st h2
            rw [List.foldl_cons]
            apply ih
            cases ScanPublic.count_internal_receives m p x with
            | none => exact h2
            | some c =>
              simp only []
              split
              · exact nodup_insertIfAbsent _ _ h2
              · exact h2
        exact hfold _ st h
      · exact h

theorem processBlock_seen (env : ScanPublic.ScanEnv) (cs te : Bool) (bn : Nat)
    (st : ScanPublic.ScanState) (a : String) :
    a ∈ (ScanPublic.processBlock env cs te st bn).seen ↔
      a ∈ st.seen ∨ ScanPublic.blockContributes env cs te bn a = true := by
  unfold ScanPublic.processBlock ScanPublic.blockContributes
  cases te with
  | false =>
    simp only [Bool.false_and, Bool.or_false]
    rw [if_neg (by simp)]
    rw [foldTx_seen]
    simp [List.any_eq_true]
  | true =>
    rw [if_pos (by simp)]
    simp only [Bool.true_and]
    rw [processTrace_seen, foldTx_seen]
    simp only [List.any_eq_true, Bool.or_eq_true]
    constructor
    · rintro ((h | h) | h)
      · exact Or.inl h
      · exact Or.inr (Or.inl h)
      · exact Or.inr (Or.inr h)
    · rintro (h | (h | h))
      · exact Or.inl (Or.inl h)
      · exact Or.inl (Or.inr h)
      · exact Or.inr h

theorem processBlock_seen_nodup (env : ScanPublic.ScanEnv) (cs te : Bool)
    (bn : Nat) (st : ScanPublic.ScanState) (h : st.seen.Nodup) :
    (ScanPublic.processBlock env cs te st bn).seen.Nodup := by
  unfold ScanPublic.processBlock
  cases te with
  | false =>
    rw [if_neg (by simp)]
    exact foldTx_seen_nodup env cs _ st h
  | true =>
    rw [if_pos (by simp)]
    exact processTrace_seen_nodup _ _ _ (foldTx_seen_nodup env cs _ st h)

theorem foldBlocks_seen (env : ScanPublic.ScanEnv) (cs te : Bool) (a : String) :
    ∀ (bns : List Nat) (st : ScanPublic.ScanState),
    a ∈ (bns.foldl (ScanPublic.processBlock env cs te) st).seen ↔
      a ∈ st.seen ∨ ∃ bn ∈ bns, ScanPublic.blockContributes env cs te bn a = true := by
  intro bns
  induction bns with
  | nil => intro st; simp
  | cons bn rest ih =>
    intro st
    rw [List.foldl_cons, ih, processBlock_seen]
    constructor
    · rintro ((h | h) | ⟨b2, h1, h2⟩)
      · exact Or.inl h
      · exact Or.inr ⟨bn, List.mem_cons_self _ _, h⟩
      · exact Or.inr ⟨b2, List.mem_cons_of_mem _ h1, h2⟩
    · rintro (h | ⟨b2, h1, h2⟩)
      · exact Or.inl (Or.inl h)
      · rcases List.mem_cons.1 h1 with rfl | h3
        · exact Or.inl (Or.inr h2)
        · exact Or.inr ⟨b2, h3, h2⟩

theorem foldBlocks_seen_nodup (env : ScanPublic.ScanEnv) (cs te : Bool) :
    ∀ (bns : List Nat) (st : ScanPublic.ScanState), st.seen.Nodup →
    (bns.foldl (ScanPublic.processBlock env cs te) st).seen.Nodup := by
  intro bns
  induction bns with
  | nil => intro st h; exact h
  | cons bn rest ih =>
    intro st h
    exact ih _ (processBlock_seen_nodup env cs te bn st h)

theorem scanState_seen (env : ScanPublic.ScanEnv) (s e : Nat) (cs te : Bool)
    (a : String) :
    a ∈ (ScanPublic.scanState env s e cs te).seen ↔
      ScanPublic.observedB env s e cs te a = true := by
  unfold ScanPublic.scanState ScanPublic.observedB
  rw [foldBlocks_seen]
  simp [ScanPublic.initState, List.any_eq_true]

theorem scanState_seen_nodup (env : ScanPublic.ScanEnv) (s e : Nat)
    (cs te : Bool) : (ScanPublic.scanState env s e cs te).seen.Nodup := by
  unfold ScanPublic.scanState
  exact foldBlocks_seen_nodup env cs te _ ScanPublic.initState (by
    simp [ScanPublic.initState])

/-- C3 (corrected): when balance_limit is 0 (no cap), scan_range emits
exactly one row per observed address — the emitted addresses are
duplicate-free and an address gets a row precisely when it appeared in
the range as a counted sender or recipient or as a counted
internal-transfer recipient; a positive balance_limit truncates the
emitted rows to the first balance_limit sorted addresses rather than
only capping balance lookups. -/
theorem claim_C3 (env : ScanPublic.ScanEnv) (s e : Nat) (cs te wb : Bool) :
    ((ScanPublic.scan_range env s e cs wb 0 te).map Row.address).Nodup ∧
    (∀ a, a ∈ (ScanPublic.scan_range env s e cs wb 0 te).map Row.address ↔
      ScanPublic.observedB env s e cs te a = true) := by
  have hrows : (ScanPublic.scan_range env s e cs wb 0 te).map Row.address
      = sortStrings (ScanPublic.scanState env s e cs te).seen := by
    simp only [ScanPublic.scan_range]
    rw [if_neg (by omega), List.map_map]
    have hcomp : (Row.address ∘ ScanPublic.mkRow env wb
        (ScanPublic.scanState env s e cs te)) = id := funext fun a => rfl
    rw [hcomp, List.map_id]
  rw [hrows]
  have hperm := sortStrings_perm (ScanPublic.scanState env s e cs te).seen
  refine ⟨hperm.nodup_iff.2 (scanState_seen_nodup env s e cs te), ?_⟩
  intro a
  rw [hperm.mem_iff]
  exact scanState_seen env s e cs te a

/-- C3 counterexample: one block with a single transaction from 0xA to
0xB observes both addresses, yet with balance_limit 1 only the row of
0xa is emitted — 0xb is an observed address with no output row. -/
theorem claim_C3_counterexample :
    (ScanPublic.scan_range sampleEnv 5 5 false false 1 false).map Row.address
      = ["0xa"] ∧
    ScanPublic.observedB sampleEnv 5 5 false false "0xb" = true := by
  exact ⟨by decide, by decide⟩

end CreditSentinel
